import Mathlib

/-!
Verification of the KBFS key-manager core (`libkbfs/key_manager.go`):
a shallow embedding of `getTLFCryptKey`, `getTLFCryptKeyParams`,
`unmaskTLFCryptKey`, `GetTLFCryptKeyOfAllGenerations` and `Rekey`
(`KeyManagerStandard`), together with theorems about the key-resolution
and rekey state machine.

External collaborators (identity service KBPKI, crypto facade, key cache,
key-halves server, metadata mutators) are modelled as oracle functions
collected in an `Env` structure; errors from those components are abstract
codes (`Err.ext`), while the distinguished error kinds of the key manager
itself (`InvalidKeyGenerationError`, `NewKeyGenerationError`,
`TLFCryptKeyNotPerDeviceEncrypted`, rekey-read, read-access,
`RekeyIncompleteError`) are explicit constructors.  The key cache is
threaded as explicit state and observable side effects are recorded in an
event trace.
-/

/-- User id (`keybase1.UID`). -/
abbrev UID := Nat

/-- A device crypt public key (`kbfscrypto.CryptPublicKey`), identified by
its KID: `k.KID()` is modelled as the key value itself. -/
abbrev KID := Nat

/-- Key generation (`KeyGen`), an integer so that the `PublicKeyGen`
sentinel below `FirstValidKeyGen` is representable. -/
abbrev KeyGen := Int

/-- Modelled from the spec: the sentinel generation of public folders
(`PublicKeyGen`); the constant itself lives outside the vendored sources.
It is below `FirstValidKeyGen`. -/
def PublicKeyGen : KeyGen := -1

/-- Modelled from the spec: the first valid key generation
(`FirstValidKeyGen`); generations of existing bundles are `≥` this. -/
def FirstValidKeyGen : KeyGen := 1

/-- The fixed sentinel folder key of public TLFs
(`kbfscrypto.PublicTLFCryptKey`). -/
def PublicTLFCryptKey : Nat := 0

/-- A TLF identifier (`tlf.ID`) with its `IsPublic` bit. -/
structure TlfID where
  id : Nat
  isPublic : Bool
deriving DecidableEq, Repr

/-- A folder handle (`TlfHandle`): resolved writer and reader uid sets plus
optional conflict info. -/
structure Handle where
  writers : List UID
  readers : List UID
  conflictInfo : Option Nat
deriving DecidableEq, Repr

/-- `TlfHandle.IsWriter`. -/
def Handle.isWriter (h : Handle) (u : UID) : Bool := h.writers.contains u

/-- `TlfHandle.IsReader`. -/
def Handle.isReader (h : Handle) (u : UID) : Bool := h.readers.contains u

/-- The zero `tlf.Handle` value (what `GetLatestHandleForTLF` leaves behind
when it fails; its error is ignored by `Rekey`). -/
def Handle.zero : Handle := ⟨[], [], none⟩

/-- Error taxonomy of the key manager.  `ext` carries an abstract code for
errors produced by external components. -/
inductive Err where
  | ext (code : Nat)
  | invalidKeyGeneration (tlf : TlfID) (gen : KeyGen)
  | newKeyGeneration (tlf : TlfID) (gen : KeyGen)
  | notPerDeviceEncrypted
  | rekeyRead
  | readAccess
  | rekeyIncomplete
  | invalidState (code : Nat)
deriving DecidableEq, Repr

/-- Observable side effects recorded while the key manager runs. -/
inductive Event where
  | cacheGet (tlf : TlfID) (gen : KeyGen)
  | cachePut (tlf : TlfID) (gen : KeyGen) (key : Nat)
  | identity
  | serverHalfFetch (shid : Nat)
  | putServerHalves
  | deleteServerHalf (uid : UID) (kid : KID) (shid : Nat)
  | addKeyGen (gen : KeyGen)
  | promote (uid : UID)
  | notify
  | decryptPMD
  | finalize
  | updateHandle
deriving DecidableEq, Repr

/-- The `getTLFCryptKeyFlags` bit set. -/
structure GetFlags where
  anyDevice : Bool
  doCache : Bool
  promptPaper : Bool
deriving DecidableEq, Repr

/-- The key cache (`KeyCache`): an association list keyed by
`(tlf, generation)`; the most recent `put` wins. -/
abbrev KeyCache := List ((TlfID × KeyGen) × Nat)

/-- Association-list lookup. -/
def lookupA {α β : Type} [DecidableEq α] (m : List (α × β)) (k : α) : Option β :=
  match m with
  | [] => none
  | (k', v) :: rest => if k' = k then some v else lookupA rest k

/-- Association-list insert with overwrite (Go map assignment). -/
def insertA {α β : Type} [DecidableEq α] (m : List (α × β)) (k : α) (v : β) :
    List (α × β) :=
  (k, v) :: m.filter (fun p => decide (p.1 ≠ k))

/-- `KeyCache.GetTLFCryptKey`: hit or miss. -/
def cacheGet (c : KeyCache) (t : TlfID) (g : KeyGen) : Option Nat :=
  lookupA c (t, g)

/-- `KeyCache.PutTLFCryptKey`. -/
def cachePut (c : KeyCache) (t : TlfID) (g : KeyGen) (k : Nat) : KeyCache :=
  ((t, g), k) :: c

/-- `uid → set of device public keys` (`UserDevicePublicKeys`), as an
association list. -/
abbrev UserDevicePublicKeys := List (UID × List KID)

/-- `UserDeviceKeyInfoMap` restricted to what the rekey diff consumes: the
per-user set of device keys present in a key bundle. -/
abbrev UserDeviceKeyInfoMap := List (UID × List KID)

/-- Outcome of `KeyMetadata.GetTLFCryptKeyParams` for one
`(generation, uid, device key)` query. -/
inductive ParamsResult where
  | ok (ePub : Nat) (encCH : Nat) (shid : Nat) (found : Bool)
  | notPerDeviceEncrypted
  | err (code : Nat)
deriving DecidableEq, Repr

/-- Read-only key metadata view (`KeyMetadata`). -/
structure KeyMetadata where
  tlfID : TlfID
  latestKeyGeneration : KeyGen
  getTLFCryptKeyParams : KeyGen → UID → KID → ParamsResult
  getHistoricTLFCryptKey : KeyGen → Nat → Except Nat Nat

/-- Outcome of `Crypto.DecryptTLFCryptKeyClientHalfAny`: `noKey` covers both
`libkb.DecryptionError` and `libkb.NoSecretKeyError` (the code treats them
identically). -/
inductive DecryptAnyResult where
  | ok (clientHalf : Nat) (index : Nat)
  | noKey (code : Nat)
  | err (code : Nat)
deriving DecidableEq, Repr

/-- The in-memory `RootMetadata` object, as far as `Rekey` observes and
mutates it.  `view` is the `KeyMetadata` read-only view (`md.ReadOnly()`). -/
structure MD where
  view : KeyMetadata
  handle : Handle
  isReadable : Bool
  serializedPMDLen : Nat
  storesHistoricTLFCryptKeys : Bool
  dataPMD : Nat
  tlfPrivKey : Nat

/-- Per-user removal info from `revokeRemovedDevices`:
`(uid, userRemoved, per-device server-half id lists)`. -/
abbrev RemovalInfo := List (UID × Bool × List (KID × List Nat))

/-- `md.updateKeyGeneration` error: the distinguished
`TLFCryptKeyNotPerDeviceEncrypted` or an abstract error. -/
inductive UpdErr where
  | notPerDeviceEncrypted
  | ext (code : Nat)
deriving DecidableEq, Repr

/-- The oracle environment: every external component the key manager calls
(KBPKI identity service, crypto facade, key-ops server, MD ops, codec) and
every fallible `RootMetadata` mutator. -/
structure Env where
  getCurrentUserInfo : Except Nat (Nat × UID)
  getCryptPublicKeys : UID → Except Nat (List KID)
  getCurrentCryptPublicKey : Except Nat KID
  decryptTLFCryptKeyClientHalfAny :
    List (KID × Nat × Nat) → Bool → DecryptAnyResult
  decryptTLFCryptKeyClientHalf : Nat → Nat → Except Nat Nat
  getTLFCryptKeyServerHalf : Nat → KID → Except Nat Nat
  unmask : Nat → Nat → Nat
  resolveAgain : Handle → Except Nat Handle
  resolveAgainForUser : Handle → UID → Except Nat Handle
  getLatestHandleForTLF : TlfID → Except Nat Handle
  withUpdatedConflictInfo : Handle → Option Nat → Except Nat Handle
  identifyUIDSets : TlfID → List UID → List UID → Except Nat Unit
  makeRandomTLFEphemeralKeys : Nat × Nat
  makeRandomTLFKeys : Except Nat (Nat × Nat × Nat)
  putTLFCryptKeyServerHalves : List (Nat × Nat) → Except Nat Unit
  deleteTLFCryptKeyServerHalf : UID → KID → Nat → Except Nat Unit
  getUserDeviceKeyInfoMaps :
    MD → KeyGen → Except Nat (UserDeviceKeyInfoMap × UserDeviceKeyInfoMap)
  promoteReader : MD → UID → Except Nat MD
  mdUpdateKeyGeneration :
    MD → KeyGen → UserDevicePublicKeys → UserDevicePublicKeys →
    Nat → Nat → Nat → Except UpdErr (MD × List (Nat × Nat))
  revokeRemovedDevices :
    MD → UserDevicePublicKeys → UserDevicePublicKeys →
    Except Nat (MD × RemovalInfo)
  addKeyGeneration : MD → Nat → Nat → Nat → Except Nat MD
  finalizeRekey : MD → Except Nat MD
  updateFromTlfHandle : MD → Handle → Except Nat MD
  decryptMDPrivateData : MD → UID → Except Nat Nat

/-- The `getTLFCryptKeyAnyDevice` loop body of `getTLFCryptKeyParams`:
walks the user's public keys, skipping keys whose params report an error
or are not found, and short-circuiting on
`TLFCryptKeyNotPerDeviceEncrypted`.  Returns
`(serverHalfIDs, keys, publicKeyLookup)` in Go's accumulation order. -/
def collectParams (kmd : KeyMetadata) (keyGen : KeyGen) (uid : UID) :
    List KID → Nat → Except Unit (List Nat × List (KID × Nat × Nat) × List Nat)
  | [], _ => .ok ([], [], [])
  | k :: rest, i =>
    match kmd.getTLFCryptKeyParams keyGen uid k with
    | .notPerDeviceEncrypted => .error ()
    | .err _ =>
      collectParams kmd keyGen uid rest (i + 1)
    | .ok ePub encCH shid found =>
      if found then
        match collectParams kmd keyGen uid rest (i + 1) with
        | .error () => .error ()
        | .ok (shids, keys, lookups) =>
          .ok (shid :: shids, (k, encCH, ePub) :: keys, i :: lookups)
      else
        collectParams kmd keyGen uid rest (i + 1)

/-- `KeyManagerStandard.getTLFCryptKeyParams`: resolves the caller's client
half, server-half id and device key for one generation, either over all of
the user's devices (`anyDevice`) or just the current device.  Its single
identity-service consultation is recorded by the caller. -/
def getTLFCryptKeyParams (env : Env) (kmd : KeyMetadata) (keyGen : KeyGen)
    (uid : UID) (flags : GetFlags) : Except Err (Nat × Nat × KID) :=
  if flags.anyDevice then
    match env.getCryptPublicKeys uid with
    | .error e => .error (.ext e)
    | .ok publicKeys =>
      match collectParams kmd keyGen uid publicKeys 0 with
      | .error () => .error .notPerDeviceEncrypted
      | .ok (shids, keys, lookups) =>
        if keys = [] then .error .rekeyRead
        else
          match env.decryptTLFCryptKeyClientHalfAny keys flags.promptPaper with
          | .noKey _ => .error .rekeyRead
          | .err e => .error (.ext e)
          | .ok clientHalf index =>
            .ok (clientHalf, shids.getD index 0,
              publicKeys.getD (lookups.getD index 0) 0)
  else
    match env.getCurrentCryptPublicKey with
    | .error e => .error (.ext e)
    | .ok cryptPublicKey =>
      match kmd.getTLFCryptKeyParams keyGen uid cryptPublicKey with
      | .notPerDeviceEncrypted => .error .notPerDeviceEncrypted
      | .err e => .error (.ext e)
      | .ok ePub encCH shid found =>
        if found then
          match env.decryptTLFCryptKeyClientHalf ePub encCH with
          | .error e => .error (.ext e)
          | .ok clientHalf => .ok (clientHalf, shid, cryptPublicKey)
        else .error .rekeyRead

/-- `KeyManagerStandard.unmaskTLFCryptKey`: fetch the server half and XOR
(`UnmaskTLFCryptKey`) with the client half.  The server-half fetch is
recorded by the caller. -/
def unmaskTLFCryptKey (env : Env) (shid : Nat) (cpk : KID) (clientHalf : Nat) :
    Except Err Nat :=
  match env.getTLFCryptKeyServerHalf shid cpk with
  | .error e => .error (.ext e)
  | .ok serverHalf => .ok (env.unmask serverHalf clientHalf)

/-- The `TLFCryptKeyNotPerDeviceEncrypted` recovery branch of
`getTLFCryptKey`: obtain the latest generation's key (cache, else params +
unmask at the latest generation) and walk the historic chain down to
`keyGen` (`GetHistoricTLFCryptKey`). -/
def getTLFCryptKeyHistoric (env : Env) (kmd : KeyMetadata) (keyGen : KeyGen)
    (uid : UID) (flags : GetFlags) (cache : KeyCache) :
    Except Err Nat × List Event :=
  let currKeyGen := kmd.latestKeyGeneration
  match cacheGet cache kmd.tlfID currKeyGen with
  | some latestKey =>
    (match kmd.getHistoricTLFCryptKey keyGen latestKey with
     | .error e => .error (.ext e)
     | .ok k => .ok k,
     [.cacheGet kmd.tlfID currKeyGen])
  | none =>
    match getTLFCryptKeyParams env kmd currKeyGen uid flags with
    | .error e => (.error e, [.cacheGet kmd.tlfID currKeyGen, .identity])
    | .ok (clientHalf, shid, cpk) =>
      match unmaskTLFCryptKey env shid cpk clientHalf with
      | .error e =>
        (.error e,
         [.cacheGet kmd.tlfID currKeyGen, .identity, .serverHalfFetch shid])
      | .ok latestKey =>
        (match kmd.getHistoricTLFCryptKey keyGen latestKey with
         | .error e => .error (.ext e)
         | .ok k => .ok k,
         [.cacheGet kmd.tlfID currKeyGen, .identity, .serverHalfFetch shid])

/-- `KeyManagerStandard.getTLFCryptKey`: public short-circuit, generation
range checks, cache probe, per-device params + unmask, historic recovery
on `TLFCryptKeyNotPerDeviceEncrypted`, and the optional cache write.
Returns the result, the updated cache and the event trace. -/
def getTLFCryptKey (env : Env) (kmd : KeyMetadata) (keyGen : KeyGen)
    (flags : GetFlags) (cache : KeyCache) :
    Except Err Nat × KeyCache × List Event :=
  let tlfID := kmd.tlfID
  if tlfID.isPublic then
    (.ok PublicTLFCryptKey, cache, [])
  else if keyGen < FirstValidKeyGen then
    (.error (.invalidKeyGeneration tlfID keyGen), cache, [])
  else if kmd.latestKeyGeneration < keyGen then
    (.error (.newKeyGeneration tlfID keyGen), cache, [])
  else
    match cacheGet cache tlfID keyGen with
    | some k => (.ok k, cache, [.cacheGet tlfID keyGen])
    | none =>
      match env.getCurrentUserInfo with
      | .error e => (.error (.ext e), cache, [.cacheGet tlfID keyGen, .identity])
      | .ok (_username, uid) =>
        let finish : Except Err Nat × List Event →
            Except Err Nat × KeyCache × List Event := fun r =>
          match r with
          | (.error e, evs) =>
            (.error e, cache, .cacheGet tlfID keyGen :: .identity :: evs)
          | (.ok tlfCryptKey, evs) =>
            if flags.doCache then
              (.ok tlfCryptKey, cachePut cache tlfID keyGen tlfCryptKey,
                .cacheGet tlfID keyGen :: .identity ::
                  (evs ++ [.cachePut tlfID keyGen tlfCryptKey]))
            else
              (.ok tlfCryptKey, cache, .cacheGet tlfID keyGen :: .identity :: evs)
        match getTLFCryptKeyParams env kmd keyGen uid flags with
        | .error .notPerDeviceEncrypted =>
          match getTLFCryptKeyHistoric env kmd keyGen uid flags cache with
          | (r, evs) => finish (r, .identity :: evs)
        | .error e => finish (.error e, [.identity])
        | .ok (clientHalf, shid, cpk) =>
          finish (unmaskTLFCryptKey env shid cpk clientHalf,
            [.identity, .serverHalfFetch shid])

/-- `getTLFCryptKeyUsingCurrentDevice`. -/
def getTLFCryptKeyUsingCurrentDevice (env : Env) (kmd : KeyMetadata)
    (keyGen : KeyGen) (cache : Bool) (kcache : KeyCache) :
    Except Err Nat × KeyCache × List Event :=
  getTLFCryptKey env kmd keyGen ⟨false, cache, false⟩ kcache

/-- The loop of `GetTLFCryptKeyOfAllGenerations`: keys for `n` successive
generations starting at `g`, stopping at the first error and returning the
keys gathered so far with it. -/
def cryptKeysFrom (env : Env) (kmd : KeyMetadata) (g : KeyGen) (n : Nat)
    (cache : KeyCache) : List Nat × Option Err × KeyCache :=
  match n with
  | 0 => ([], none, cache)
  | n + 1 =>
    match getTLFCryptKeyUsingCurrentDevice env kmd g true cache with
    | (.error e, c', _) => ([], some e, c')
    | (.ok k, c', _) =>
      match cryptKeysFrom env kmd (g + 1) n c' with
      | (ks, e?, c'') => (k :: ks, e?, c'')

/-- `KeyManagerStandard.GetTLFCryptKeyOfAllGenerations`: one key per
generation from `FirstValidKeyGen` up to the latest generation. -/
def GetTLFCryptKeyOfAllGenerations (env : Env) (kmd : KeyMetadata)
    (cache : KeyCache) : List Nat × Option Err × KeyCache :=
  cryptKeysFrom env kmd FirstValidKeyGen
    (kmd.latestKeyGeneration - FirstValidKeyGen + 1).toNat cache

/-- `KeyManagerStandard.usersWithNewDevices`: users of the expected key set
with at least one device absent from the recorded key bundle (or absent
from the bundle entirely). -/
def usersWithNewDevices (keyInfoMap : UserDeviceKeyInfoMap)
    (expectedKeys : UserDevicePublicKeys) : List UID :=
  ((expectedKeys.filter fun p =>
    match lookupA keyInfoMap p.1 with
    | none => true
    | some kids => p.2.any fun k => !(kids.contains k)).map Prod.fst).dedup

/-- `KeyManagerStandard.usersWithRemovedDevices`: users of the recorded key
bundle with at least one device whose KID has no expected key (or who left
the expected set entirely). -/
def usersWithRemovedDevices (keyInfoMap : UserDeviceKeyInfoMap)
    (expectedKeys : UserDevicePublicKeys) : List UID :=
  ((keyInfoMap.filter fun p =>
    match lookupA expectedKeys p.1 with
    | none => true
    | some keys => p.2.any fun key => !(keys.contains key)).map Prod.fst).dedup

/-- Set union of uid sets (Go merges one map into the other). -/
def mergeUsers (a b : List UID) : List UID :=
  (a ++ b.filter fun u => !(a.contains u)).dedup

/-- `KeyManagerStandard.generateKeyMapForUsers`: the device key sets of a
user list, fetched through KBPKI (cache flush elided; errors propagate in
iteration order). -/
def generateKeyMapForUsers (env : Env) :
    List UID → Except Nat UserDevicePublicKeys
  | [] => .ok []
  | u :: rest =>
    match env.getCryptPublicKeys u with
    | .error e => .error e
    | .ok ks =>
      match generateKeyMapForUsers env rest with
      | .error e => .error e
      | .ok m => .ok (insertA m u ks)

/-- Handle re-resolution in `Rekey` (lines 461–504): `ResolveAgain`, the
non-writer restriction (revert to the original handle for an existing
reader, else `ResolveAgainForUser`), the handle-changed comparison, and the
conflict-info merge (where the `GetLatestHandleForTLF` error is ignored).
Returns `(resolvedHandle, isWriter, handleChanged)`. -/
def resolveHandleForRekey (env : Env) (md : MD) (uid : UID) :
    Except Err (Handle × Bool × Bool) :=
  match env.resolveAgain md.handle with
  | .error e => .error (.ext e)
  | .ok rh0 =>
    let isWriter := rh0.isWriter uid
    let step : Except Err Handle :=
      if !md.view.tlfID.isPublic && !isWriter then
        if md.handle.isReader uid then .ok md.handle
        else
          match env.resolveAgainForUser md.handle uid with
          | .error e => .error (.ext e)
          | .ok rh1 => .ok rh1
      else .ok rh0
    match step with
    | .error e => .error e
    | .ok rh1 =>
      let handleChanged := md.handle ≠ rh1
      if handleChanged then
        let latestHandle :=
          match env.getLatestHandleForTLF md.view.tlfID with
          | .ok h => h
          | .error _ => Handle.zero
        match env.withUpdatedConflictInfo rh1 latestHandle.conflictInfo with
        | .error e => .error (.ext e)
        | .ok rh2 => .ok (rh2, isWriter, true)
      else .ok (rh1, isWriter, false)

/-- `KeyManagerStandard.updateKeyGeneration`: re-wrap one generation via
`md.updateKeyGeneration` and push the produced server halves. -/
def updateKeyGeneration (env : Env) (md : MD) (keyGen : KeyGen)
    (wKeys rKeys : UserDevicePublicKeys) (ePubKey ePrivKey : Nat)
    (tlfCryptKey : Nat) : Except Err MD × List Event :=
  match env.mdUpdateKeyGeneration md keyGen wKeys rKeys ePubKey ePrivKey tlfCryptKey with
  | .error .notPerDeviceEncrypted => (.error .notPerDeviceEncrypted, [])
  | .error (.ext e) => (.error (.ext e), [])
  | .ok (md', serverHalves) =>
    match env.putTLFCryptKeyServerHalves serverHalves with
    | .error e => (.error (.ext e), [.putServerHalves])
    | .ok _ => (.ok md', [.putServerHalves])

/-- The `promoteReader` loop of `Rekey` (lines 626–633): returns the error
of the first failing promotion, the metadata mutated so far, and a promote
event per successful promotion. -/
def promoteLoop (env : Env) (md : MD) :
    List UID → Option Err × MD × List Event
  | [] => (none, md, [])
  | u :: rest =>
    match env.promoteReader md u with
    | .error e => (some (.ext e), md, [])
    | .ok md' =>
      match promoteLoop env md' rest with
      | (e?, md'', evs) => (e?, md'', .promote u :: evs)

/-- The re-wrapping loop of `Rekey` (lines 642–663): for `n` generations
starting at `g`, fetch the generation's key with `anyDevice` flags and
re-wrap it; a `TLFCryptKeyNotPerDeviceEncrypted` from the metadata update
skips that generation. -/
def rewrapLoop (env : Env) (wKeys rKeys : UserDevicePublicKeys)
    (ePubKey ePrivKey : Nat) (promptPaper : Bool) :
    Nat → KeyGen → MD → KeyCache → Option Err × MD × KeyCache × List Event
  | 0, _, md, cache => (none, md, cache, [])
  | n + 1, g, md, cache =>
    match getTLFCryptKey env md.view g ⟨true, false, promptPaper⟩ cache with
    | (.error e, c', evs) => (some e, md, c', evs)
    | (.ok currTlfCryptKey, c', evs) =>
      match updateKeyGeneration env md g wKeys rKeys ePubKey ePrivKey currTlfCryptKey with
      | (.error .notPerDeviceEncrypted, evsU) =>
        match rewrapLoop env wKeys rKeys ePubKey ePrivKey promptPaper n (g + 1) md c' with
        | (e?, md', c'', evs') => (e?, md', c'', evs ++ evsU ++ evs')
      | (.error e, evsU) => (some e, md, c', evs ++ evsU)
      | (.ok md1, evsU) =>
        match rewrapLoop env wKeys rKeys ePubKey ePrivKey promptPaper n (g + 1) md1 c' with
        | (e?, md', c'', evs') => (e?, md', c'', evs ++ evsU ++ evs')

/-- Flattens `revokeRemovedDevices` removal info into the
`(uid, device KID, server-half id)` triples the deletion loop walks. -/
def flattenRemovalInfo (ri : RemovalInfo) : List (UID × KID × Nat) :=
  ri.flatMap fun p => p.2.2.flatMap fun q => q.2.map fun shid => (p.1, q.1, shid)

/-- The server-half deletion loop of `Rekey` (lines 740–757): delete each
orphaned server half, stopping at the first failure. -/
def processDeletes (env : Env) :
    List (UID × KID × Nat) → Option Err × List Event
  | [] => (none, [])
  | (u, k, s) :: rest =>
    match env.deleteTLFCryptKeyServerHalf u k s with
    | .error e => (some (.ext e), [])
    | .ok _ =>
      match processDeletes env rest with
      | (e?, evs) => (e?, .deleteServerHalf u k s :: evs)

/-- The state `Rekey` carries from the diff into the later phases. -/
structure RekeyState where
  md : MD
  cache : KeyCache
  trace : List Event
  uid : UID
  resolvedHandle : Handle
  isWriter : Bool
  incKeyGen : Bool
  addNewReaderDevice : Bool
  addNewWriterDevice : Bool
  addNewReaderDeviceForSelf : Bool
  newReaderUsers : List UID
  newWriterUsers : List UID
  promotedReaders : List UID
  wKeys : UserDevicePublicKeys
  rKeys : UserDevicePublicKeys
  currKeyGen : KeyGen
  promptPaper : Bool
  ePubKey : Nat
  ePrivKey : Nat

/-- The observable outcome of a `Rekey` call: the `(mdChanged, cryptKey,
err)` triple, the final in-memory metadata and cache, the event trace, and
(as instrumentation) the flattened server-half ids reported by
`revokeRemovedDevices` during the call. -/
structure RekeyResult where
  mdChanged : Bool
  cryptKey : Option Nat
  err : Option Err
  md : MD
  cache : KeyCache
  trace : List Event
  removalIDs : List (UID × KID × Nat)

/-- The tail of the generation bump (lines 760–798): fresh TLF keys, the
previous key fetch for historic chaining, `AddKeyGeneration`, the update of
the new generation, and the private-key store. -/
def rekeyMainTail (env : Env) (st : RekeyState) (md1 : MD) (trace : List Event)
    (ids : List (UID × KID × Nat)) : RekeyResult :=
  match env.makeRandomTLFKeys with
  | .error e => ⟨false, none, some (.ext e), md1, st.cache, trace, ids⟩
  | .ok (pubKey, privKey, tlfCryptKey) =>
    let step : Except (Err × KeyCache × List Event) (Nat × Nat × KeyCache × List Event) :=
      if md1.storesHistoricTLFCryptKeys then
        if FirstValidKeyGen ≤ st.currKeyGen then
          match getTLFCryptKey env md1.view st.currKeyGen
              ⟨true, false, st.promptPaper⟩ st.cache with
          | (.error e, c', evs) => .error (e, c', evs)
          | (.ok prevKey, c', evs) => .ok (prevKey, tlfCryptKey, c', evs)
        else .ok (0, tlfCryptKey, st.cache, [])
      else .ok (0, 0, st.cache, [])
    match step with
    | .error (e, c', evs) => ⟨false, none, some e, md1, c', trace ++ evs, ids⟩
    | .ok (prevTLFCryptKey, currTLFCryptKey, c', evs) =>
      match env.addKeyGeneration md1 prevTLFCryptKey currTLFCryptKey pubKey with
      | .error e => ⟨false, none, some (.ext e), md1, c', trace ++ evs, ids⟩
      | .ok md2 =>
        let newGen := md2.view.latestKeyGeneration
        match updateKeyGeneration env md2 newGen st.wKeys st.rKeys
            st.ePubKey st.ePrivKey tlfCryptKey with
        | (.error e, evsU) =>
          ⟨false, none, some e, md2, c',
            trace ++ evs ++ [.addKeyGen newGen] ++ evsU, ids⟩
        | (.ok md3, evsU) =>
          ⟨true, some tlfCryptKey, none, { md3 with tlfPrivKey := privKey }, c',
            trace ++ evs ++ [.addKeyGen newGen] ++ evsU, ids⟩

/-- The body of `Rekey` after the deferred handlers are registered (lines
708–798): the reader early-outs, the rekey notification, revocation with
server-half deletion, and the generation bump. -/
def rekeyMain (env : Env) (st : RekeyState) : RekeyResult :=
  if !st.isWriter then
    if st.newReaderUsers ≠ [] ∨ st.addNewWriterDevice ∨ st.incKeyGen then
      ⟨st.addNewReaderDeviceForSelf, none, some .rekeyIncomplete,
        st.md, st.cache, st.trace, []⟩
    else ⟨true, none, none, st.md, st.cache, st.trace, []⟩
  else if !st.incKeyGen then
    ⟨true, none, none, st.md, st.cache, st.trace, []⟩
  else
    if FirstValidKeyGen ≤ st.currKeyGen then
      match env.revokeRemovedDevices st.md st.wKeys st.rKeys with
      | .error e =>
        ⟨false, none, some (.ext e), st.md, st.cache, st.trace ++ [.notify], []⟩
      | .ok (md1, ri) =>
        let ids := flattenRemovalInfo ri
        match processDeletes env ids with
        | (some e, evsD) =>
          ⟨false, none, some e, md1, st.cache, st.trace ++ [.notify] ++ evsD, ids⟩
        | (none, evsD) =>
          rekeyMainTail env st md1 (st.trace ++ [.notify] ++ evsD) ids
    else
      rekeyMainTail env st st.md (st.trace ++ [.notify]) []

/-- The two deferred handlers of `Rekey` in their execution order: first
`finalizeRekey` (runs when the metadata changed and the error is nil or
`RekeyIncompleteError`; on failure it resets `mdChanged` and the crypt key
and replaces the error), then `updateFromTlfHandle` (runs when the error is
nil or `RekeyIncompleteError`; on failure it replaces the error). -/
def rekeyDefers (env : Env) (resolvedHandle : Handle) (r : RekeyResult) :
    RekeyResult :=
  let r1 :=
    if r.mdChanged ∧ (r.err = none ∨ r.err = some .rekeyIncomplete) then
      match env.finalizeRekey r.md with
      | .ok md' => { r with md := md', trace := r.trace ++ [.finalize] }
      | .error e =>
        { r with mdChanged := false,
                 cryptKey := none,
                 err := some (.ext e),
                 trace := r.trace ++ [.finalize] }
    else r
  if r1.err = none ∨ r1.err = some .rekeyIncomplete then
    match env.updateFromTlfHandle r1.md resolvedHandle with
    | .ok md' => { r1 with md := md', trace := r1.trace ++ [.updateHandle] }
    | .error e =>
      { r1 with err := some (.ext e), trace := r1.trace ++ [.updateHandle] }
  else r1

/-- The post-defer phase: run the main body, then apply the deferred
handlers. -/
def rekeyFinish (env : Env) (st : RekeyState) : RekeyResult :=
  rekeyDefers env st.resolvedHandle (rekeyMain env st)

/-- The tail of `Rekey`'s pre-defer phase (lines 665–678 and onward):
decryption of stale private metadata followed by the deferred-handler
region. -/
def rekeyAfterRewrap (env : Env) (st : RekeyState) (ePubKey ePrivKey : Nat)
    (mdR : MD) (cacheR : KeyCache) (trace : List Event) : RekeyResult :=
  let pmdStep : Except Err (MD × List Event) :=
    if !mdR.isReadable ∧ 0 < mdR.serializedPMDLen then
      match env.decryptMDPrivateData mdR st.uid with
      | .error e => .error (.ext e)
      | .ok pmd => .ok ({ mdR with dataPMD := pmd }, [.decryptPMD])
    else .ok (mdR, [])
  match pmdStep with
  | .error e => ⟨false, none, some e, mdR, cacheR, trace, []⟩
  | .ok (mdD, evsD) =>
    rekeyFinish env
      { st with md := mdD,
                cache := cacheR,
                trace := trace ++ evsD,
                ePubKey := ePubKey,
                ePrivKey := ePrivKey }

/-- `Rekey` after the reader scope restriction (lines 623–678): ephemeral
keys (whose generation error the code never checks), reader promotion,
re-wrapping of existing generations when a device was added, decryption of
stale private metadata, then the deferred-handler region. -/
def rekeyAfterScope (env : Env) (st : RekeyState) : RekeyResult :=
  let (ePubKey, ePrivKey) := env.makeRandomTLFEphemeralKeys
  match promoteLoop env st.md st.promotedReaders with
  | (some e, mdP, evsP) =>
    ⟨false, none, some e, mdP, st.cache, st.trace ++ evsP, []⟩
  | (none, mdP, evsP) =>
    if st.addNewReaderDevice ∨ st.addNewWriterDevice then
      match rewrapLoop env st.wKeys st.rKeys ePubKey ePrivKey st.promptPaper
          (st.currKeyGen - FirstValidKeyGen + 1).toNat FirstValidKeyGen
          mdP st.cache with
      | (some e, mdR, cacheR, evsR) =>
        ⟨false, none, some e, mdR, cacheR, st.trace ++ evsP ++ evsR, []⟩
      | (none, mdR, cacheR, evsR) =>
        rekeyAfterRewrap env st ePubKey ePrivKey mdR cacheR
          (st.trace ++ evsP ++ evsR)
    else
      rekeyAfterRewrap env st ePubKey ePrivKey mdP st.cache (st.trace ++ evsP)

/-- The reader scope restriction of `Rekey` (lines 605–618): a non-writer
caller with a new reader device who is not being promoted continues with
the rekey scoped to their own reader entry; every other non-writer caller
gets `RekeyIncompleteError` (before the deferred handlers are
registered). -/
def rekeyAfterDiff (env : Env) (st : RekeyState) : RekeyResult :=
  if st.isWriter then rekeyAfterScope env st
  else if st.newReaderUsers.contains st.uid ∧ ¬ st.promotedReaders.contains st.uid then
    rekeyAfterScope env
      { st with rKeys := [(st.uid, (lookupA st.rKeys st.uid).getD [])],
                wKeys := [],
                newReaderUsers := st.newReaderUsers.erase st.uid }
  else
    ⟨false, none, some .rekeyIncomplete, st.md, st.cache, st.trace, []⟩

/-- `KeyManagerStandard.Rekey`: precondition checks, handle re-resolution,
the public-folder path, the first-generation guard, expected-key-set
construction, the device diff (with the KBFS-1744 `incKeyGen` computation
and promoted-reader tracking), the no-op check, and the later phases. -/
def Rekey (env : Env) (md : MD) (promptPaper : Bool) (cache : KeyCache) :
    RekeyResult :=
  let currKeyGen := md.view.latestKeyGeneration
  if md.view.tlfID.isPublic ≠ (currKeyGen = PublicKeyGen) then
    ⟨false, none, some (.invalidState 0), md, cache, [], []⟩
  else if promptPaper ∧ md.view.tlfID.isPublic then
    ⟨false, none, some (.invalidState 1), md, cache, [], []⟩
  else
    match env.getCurrentUserInfo with
    | .error e => ⟨false, none, some (.ext e), md, cache, [], []⟩
    | .ok (_username, uid) =>
      match resolveHandleForRekey env md uid with
      | .error e => ⟨false, none, some e, md, cache, [], []⟩
      | .ok (resolvedHandle, isWriter, handleChanged) =>
        if md.view.tlfID.isPublic then
          if !handleChanged then ⟨false, none, none, md, cache, [], []⟩
          else
            match env.updateFromTlfHandle md resolvedHandle with
            | .ok md' => ⟨true, none, none, md', cache, [.updateHandle], []⟩
            | .error e =>
              ⟨true, none, some (.ext e), md, cache, [.updateHandle], []⟩
        else
          let incKeyGen0 := currKeyGen < FirstValidKeyGen
          if !isWriter ∧ incKeyGen0 then
            ⟨false, none, some .readAccess, md, cache, [], []⟩
          else
            match generateKeyMapForUsers env resolvedHandle.writers with
            | .error e => ⟨false, none, some (.ext e), md, cache, [], []⟩
            | .ok wKeys =>
              match generateKeyMapForUsers env resolvedHandle.readers with
              | .error e => ⟨false, none, some (.ext e), md, cache, [], []⟩
              | .ok rKeys =>
                if incKeyGen0 then
                  rekeyAfterDiff env
                    ⟨md, cache, [], uid, resolvedHandle, isWriter, true,
                      false, false, false, [], [], [], wKeys, rKeys,
                      currKeyGen, promptPaper, 0, 0⟩
                else
                  match env.getUserDeviceKeyInfoMaps md currKeyGen with
                  | .error e => ⟨false, none, some (.ext e), md, cache, [], []⟩
                  | .ok (rDkim, wDkim) =>
                    let newWriterUsers := usersWithNewDevices wDkim wKeys
                    let newReaderUsers := usersWithNewDevices rDkim rKeys
                    let addNewWriterDevice := newWriterUsers ≠ []
                    let addNewReaderDevice := newReaderUsers ≠ []
                    let wRemoved := usersWithRemovedDevices wDkim wKeys
                    let rRemoved := usersWithRemovedDevices rDkim rKeys
                    let incKeyGen := wRemoved ≠ [] ∨ rRemoved ≠ []
                    let addSelf := newReaderUsers.contains uid
                    let promotedReaders :=
                      rRemoved.filter fun u => newWriterUsers.contains u
                    let newReaderUsers' := mergeUsers newReaderUsers rRemoved
                    let newWriterUsers' := mergeUsers newWriterUsers wRemoved
                    match env.identifyUIDSets md.view.tlfID newWriterUsers' newReaderUsers' with
                    | .error e => ⟨false, none, some (.ext e), md, cache, [], []⟩
                    | .ok _ =>
                      if ¬ addNewReaderDevice ∧ ¬ addNewWriterDevice ∧
                          ¬ incKeyGen ∧ ¬ handleChanged then
                        ⟨false, none, none, md, cache, [], []⟩
                      else
                        rekeyAfterDiff env
                          ⟨md, cache, [], uid, resolvedHandle, isWriter,
                            incKeyGen, addNewReaderDevice, addNewWriterDevice,
                            addSelf, newReaderUsers', newWriterUsers',
                            promotedReaders, wKeys, rKeys, currKeyGen,
                            promptPaper, 0, 0⟩

/-- The remainder of `Rekey` once the expected key sets and the current
device-key infos have been fetched (lines 541–618 and onward): the device
diff, the KBFS-1744 `incKeyGen` computation, promoted-reader tracking, the
identify call, the no-op check, and the dispatch into the later phases. -/
def rekeyPostDiff (env : Env) (md : MD) (pp : Bool) (cache : KeyCache)
    (uid : UID) (resolvedHandle : Handle) (isWriter handleChanged : Bool)
    (wKeys rKeys : UserDevicePublicKeys)
    (rDkim wDkim : UserDeviceKeyInfoMap) : RekeyResult :=
  let newWriterUsers := usersWithNewDevices wDkim wKeys
  let newReaderUsers := usersWithNewDevices rDkim rKeys
  let addNewWriterDevice := newWriterUsers ≠ []
  let addNewReaderDevice := newReaderUsers ≠ []
  let wRemoved := usersWithRemovedDevices wDkim wKeys
  let rRemoved := usersWithRemovedDevices rDkim rKeys
  let incKeyGen := wRemoved ≠ [] ∨ rRemoved ≠ []
  let addSelf := newReaderUsers.contains uid
  let promotedReaders :=
    rRemoved.filter fun u => newWriterUsers.contains u
  let newReaderUsers' := mergeUsers newReaderUsers rRemoved
  let newWriterUsers' := mergeUsers newWriterUsers wRemoved
  match env.identifyUIDSets md.view.tlfID newWriterUsers' newReaderUsers' with
  | .error e => ⟨false, none, some (.ext e), md, cache, [], []⟩
  | .ok _ =>
    if ¬ addNewReaderDevice ∧ ¬ addNewWriterDevice ∧
        ¬ incKeyGen ∧ ¬ handleChanged then
      ⟨false, none, none, md, cache, [], []⟩
    else
      rekeyAfterDiff env
        ⟨md, cache, [], uid, resolvedHandle, isWriter,
          incKeyGen, addNewReaderDevice, addNewWriterDevice,
          addSelf, newReaderUsers', newWriterUsers',
          promotedReaders, wKeys, rKeys, md.view.latestKeyGeneration,
          pp, 0, 0⟩

/-! ## General lemmas about the key resolver -/

theorem collectParams_npde {kmd : KeyMetadata} {g : KeyGen} {uid : UID} :
    ∀ {ks : List KID} {i : Nat}, collectParams kmd g uid ks i = .error () →
    ∃ k ∈ ks, kmd.getTLFCryptKeyParams g uid k = .notPerDeviceEncrypted := by
  intro ks
  induction ks with
  | nil => intro i h; simp [collectParams] at h
  | cons k rest ih =>
    intro i h
    unfold collectParams at h
    cases hp : kmd.getTLFCryptKeyParams g uid k with
    | notPerDeviceEncrypted => exact ⟨k, List.mem_cons_self k rest, hp⟩
    | err c =>
      simp only [hp] at h
      obtain ⟨k', hk', hk'p⟩ := ih h
      exact ⟨k', List.mem_cons_of_mem _ hk', hk'p⟩
    | ok ePub encCH shid found =>
      simp only [hp] at h
      by_cases hf : found
      · simp only [hf, if_true] at h
        cases hc : collectParams kmd g uid rest (i + 1) with
        | error u =>
          obtain ⟨k', hk', hk'p⟩ := ih hc
          exact ⟨k', List.mem_cons_of_mem _ hk', hk'p⟩
        | ok triple => rw [hc] at h; cases h
      · simp only [hf, if_false] at h
        obtain ⟨k', hk', hk'p⟩ := ih h
        exact ⟨k', List.mem_cons_of_mem _ hk', hk'p⟩

theorem getTLFCryptKeyParams_err_shape {env : Env} {kmd : KeyMetadata}
    {g : KeyGen} {uid : UID} {flags : GetFlags} {e : Err}
    (h : getTLFCryptKeyParams env kmd g uid flags = .error e) :
    (e = .notPerDeviceEncrypted →
      ∃ k, kmd.getTLFCryptKeyParams g uid k = .notPerDeviceEncrypted) ∧
    (e = .notPerDeviceEncrypted ∨ e = .rekeyRead ∨ ∃ c, e = .ext c) := by
  unfold getTLFCryptKeyParams at h
  by_cases ha : flags.anyDevice
  · simp only [ha, if_true] at h
    cases hk : env.getCryptPublicKeys uid with
    | error c =>
      simp only [hk] at h; cases h
      exact ⟨(by intro h'; cases h'), .inr (.inr ⟨c, rfl⟩)⟩
    | ok publicKeys =>
      simp only [hk] at h
      cases hc : collectParams kmd g uid publicKeys 0 with
      | error u =>
        simp only [hc] at h
        cases h
        refine ⟨fun _ => ?_, .inl rfl⟩
        obtain ⟨k, _, hk2⟩ := collectParams_npde hc
        exact ⟨k, hk2⟩
      | ok triple =>
        obtain ⟨shids, keys, lookups⟩ := triple
        simp only [hc] at h
        by_cases he : keys = []
        · simp only [he, if_true] at h; cases h
          exact ⟨(by intro h'; cases h'), .inr (.inl rfl)⟩
        · simp only [he, if_false] at h
          cases hd : env.decryptTLFCryptKeyClientHalfAny keys flags.promptPaper with
          | ok ch idx => simp only [hd] at h; cases h
          | noKey c =>
            simp only [hd] at h; cases h
            exact ⟨(by intro h'; cases h'), .inr (.inl rfl)⟩
          | err c =>
            simp only [hd] at h; cases h
            exact ⟨(by intro h'; cases h'), .inr (.inr ⟨c, rfl⟩)⟩
  · simp only [ha, if_false] at h
    cases hk : env.getCurrentCryptPublicKey with
    | error c =>
      simp only [hk] at h; cases h
      exact ⟨(by intro h'; cases h'), .inr (.inr ⟨c, rfl⟩)⟩
    | ok cpk =>
      simp only [hk] at h
      cases hp : kmd.getTLFCryptKeyParams g uid cpk with
      | notPerDeviceEncrypted =>
        simp only [hp] at h; cases h
        exact ⟨fun _ => ⟨cpk, hp⟩, .inl rfl⟩
      | err c =>
        simp only [hp] at h; cases h
        exact ⟨(by intro h'; cases h'), .inr (.inr ⟨c, rfl⟩)⟩
      | ok ePub encCH shid found =>
        simp only [hp] at h
        by_cases hf : found
        · simp only [hf, if_true] at h
          cases hd : env.decryptTLFCryptKeyClientHalf ePub encCH with
          | error c =>
            simp only [hd] at h; cases h
            exact ⟨(by intro h'; cases h'), .inr (.inr ⟨c, rfl⟩)⟩
          | ok ch => simp only [hd] at h; cases h
        · simp only [hf, if_false] at h; cases h
          exact ⟨(by intro h'; cases h'), .inr (.inl rfl)⟩

theorem unmaskTLFCryptKey_err_shape {env : Env} {shid : Nat} {cpk : KID}
    {ch : Nat} {e : Err}
    (h : unmaskTLFCryptKey env shid cpk ch = .error e) : ∃ c, e = .ext c := by
  unfold unmaskTLFCryptKey at h
  cases hs : env.getTLFCryptKeyServerHalf shid cpk with
  | error c => simp only [hs] at h; cases h; exact ⟨c, rfl⟩
  | ok s => simp only [hs] at h; cases h

theorem getTLFCryptKeyHistoric_err_shape {env : Env} {kmd : KeyMetadata}
    {g : KeyGen} {uid : UID} {flags : GetFlags} {cache : KeyCache} {e : Err}
    (h : (getTLFCryptKeyHistoric env kmd g uid flags cache).1 = .error e) :
    (e = .notPerDeviceEncrypted →
      ∃ k, kmd.getTLFCryptKeyParams kmd.latestKeyGeneration uid k =
        .notPerDeviceEncrypted) ∧
    (e = .notPerDeviceEncrypted ∨ e = .rekeyRead ∨ ∃ c, e = .ext c) := by
  unfold getTLFCryptKeyHistoric at h
  cases hcg : cacheGet cache kmd.tlfID kmd.latestKeyGeneration with
  | some latestKey =>
    simp only [hcg] at h
    cases hh : kmd.getHistoricTLFCryptKey g latestKey with
    | error c =>
      simp only [hh] at h; cases h
      exact ⟨(by intro h'; cases h'), .inr (.inr ⟨c, rfl⟩)⟩
    | ok k => simp only [hh] at h; cases h
  | none =>
    simp only [hcg] at h
    cases hp : getTLFCryptKeyParams env kmd kmd.latestKeyGeneration uid flags with
    | error e2 =>
      simp only [hp] at h
      cases h
      exact getTLFCryptKeyParams_err_shape hp
    | ok triple =>
      obtain ⟨ch, shid, cpk⟩ := triple
      simp only [hp] at h
      cases hm : unmaskTLFCryptKey env shid cpk ch with
      | error e2 =>
        simp only [hm] at h; cases h
        obtain ⟨c, rfl⟩ := unmaskTLFCryptKey_err_shape hm
        exact ⟨(by intro h'; cases h'), .inr (.inr ⟨c, rfl⟩)⟩
      | ok latestKey =>
        simp only [hm] at h
        cases hh : kmd.getHistoricTLFCryptKey g latestKey with
        | error c =>
          simp only [hh] at h; cases h
          exact ⟨(by intro h'; cases h'), .inr (.inr ⟨c, rfl⟩)⟩
        | ok k => simp only [hh] at h; cases h

theorem getTLFCryptKey_err_shape {env : Env} {kmd : KeyMetadata} {g : KeyGen}
    {flags : GetFlags} {cache : KeyCache} {e : Err}
    (h : (getTLFCryptKey env kmd g flags cache).1 = .error e) :
    e ≠ .rekeyIncomplete ∧ e ≠ .readAccess ∧
    (e = .notPerDeviceEncrypted →
      ∃ u k, kmd.getTLFCryptKeyParams kmd.latestKeyGeneration u k =
        .notPerDeviceEncrypted) := by
  unfold getTLFCryptKey at h
  by_cases hpub : kmd.tlfID.isPublic
  · simp only [hpub, if_true] at h; cases h
  · simp only [hpub, Bool.false_eq_true, if_false] at h
    by_cases hlo : g < FirstValidKeyGen
    · simp only [hlo, if_true] at h
      cases h
      exact ⟨(by intro h'; cases h'), (by intro h'; cases h'), (by intro h'; cases h')⟩
    · simp only [hlo, if_false] at h
      by_cases hhi : kmd.latestKeyGeneration < g
      · simp only [hhi, if_true] at h
        cases h
        exact ⟨(by intro h'; cases h'), (by intro h'; cases h'), (by intro h'; cases h')⟩
      · simp only [hhi, if_false] at h
        cases hc : cacheGet cache kmd.tlfID g with
        | some k => simp only [hc] at h; cases h
        | none =>
          simp only [hc] at h
          cases hu : env.getCurrentUserInfo with
          | error c =>
            simp only [hu] at h; cases h
            exact ⟨(by intro h'; cases h'), (by intro h'; cases h'), (by intro h'; cases h')⟩
          | ok p =>
            obtain ⟨username, uid⟩ := p
            simp only [hu] at h
            cases hp : getTLFCryptKeyParams env kmd g uid flags with
            | error e' =>
              obtain ⟨hnpd, hcase⟩ := getTLFCryptKeyParams_err_shape hp
              rcases hcase with rfl | rfl | ⟨c, rfl⟩
              · simp only [hp] at h
                cases hh : getTLFCryptKeyHistoric env kmd g uid flags cache with
                | mk hres hevs =>
                  simp only [hh] at h
                  cases hres with
                  | error e2 =>
                    simp only [] at h
                    cases h
                    obtain ⟨hnpd2, hcase2⟩ :=
                      getTLFCryptKeyHistoric_err_shape (e := e) (by rw [hh])
                    refine ⟨?_, ?_, fun hq => ⟨uid, hnpd2 hq⟩⟩
                    · rcases hcase2 with rfl | rfl | ⟨c, rfl⟩ <;> intro h' <;> cases h'
                    · rcases hcase2 with rfl | rfl | ⟨c, rfl⟩ <;> intro h' <;> cases h'
                  | ok k =>
                    by_cases hdc : flags.doCache
                    · simp only [hdc, if_true] at h; cases h
                    · simp only [hdc, Bool.false_eq_true, if_false] at h; cases h
              · simp only [hp] at h; cases h
                exact ⟨(by intro h'; cases h'), (by intro h'; cases h'), (by intro h'; cases h')⟩
              · simp only [hp] at h; cases h
                exact ⟨(by intro h'; cases h'), (by intro h'; cases h'), (by intro h'; cases h')⟩
            | ok triple =>
              obtain ⟨clientHalf, shid, cpk⟩ := triple
              simp only [hp] at h
              cases hm : unmaskTLFCryptKey env shid cpk clientHalf with
              | error e2 =>
                simp only [hm] at h
                cases h
                obtain ⟨c, rfl⟩ := unmaskTLFCryptKey_err_shape hm
                exact ⟨(by intro h'; cases h'), (by intro h'; cases h'), (by intro h'; cases h')⟩
              | ok k =>
                simp only [hm] at h
                by_cases hdc : flags.doCache
                · simp only [hdc, if_true] at h; cases h
                · simp only [hdc, Bool.false_eq_true, if_false] at h; cases h

/-- Is this event an `AddKeyGeneration`? -/
def Event.isAdd : Event → Bool
  | .addKeyGen _ => true
  | _ => false

/-- Is this event a `DeleteTLFCryptKeyServerHalf`? -/
def Event.isDel : Event → Bool
  | .deleteServerHalf _ _ _ => true
  | _ => false

/-- Is this event a `PutTLFCryptKey` on the key cache? -/
def Event.isCachePut : Event → Bool
  | .cachePut _ _ _ => true
  | _ => false

/-- No `deleteServerHalf` event occurs after an `addKeyGen` event: the
trace-level statement that all server-half deletions complete before the
new key generation is appended. -/
def noDeleteAfterAdd : List Event → Bool
  | [] => true
  | e :: rest =>
    if e.isAdd then rest.all fun x => !x.isDel else noDeleteAfterAdd rest

/-! ## Concrete witness environments -/

/-- A small concrete metadata view for witnesses: two generations, every
per-device query succeeds. -/
def kmdW : KeyMetadata :=
  { tlfID := ⟨1, false⟩
  , latestKeyGeneration := 2
  , getTLFCryptKeyParams := fun _g _u _k => .ok 10 20 30 true
  , getHistoricTLFCryptKey := fun _g k => .ok (k + 100) }

/-- A metadata view whose historic generations report
`TLFCryptKeyNotPerDeviceEncrypted` (V3-style) but whose latest generation
carries per-device entries. -/
def kmdH : KeyMetadata :=
  { tlfID := ⟨1, false⟩
  , latestKeyGeneration := 2
  , getTLFCryptKeyParams := fun g _u _k =>
      if g = 2 then .ok 10 20 30 true else .notPerDeviceEncrypted
  , getHistoricTLFCryptKey := fun _g k => .ok (k + 100) }

/-- A concrete all-success oracle environment for witnesses. -/
def envW : Env :=
  { getCurrentUserInfo := .ok (0, 1)
  , getCryptPublicKeys := fun _u => .ok [5]
  , getCurrentCryptPublicKey := .ok 5
  , decryptTLFCryptKeyClientHalfAny := fun _keys _p => .ok 7 0
  , decryptTLFCryptKeyClientHalf := fun _ _ => .ok 7
  , getTLFCryptKeyServerHalf := fun _ _ => .ok 9
  , unmask := fun a b => a + b
  , resolveAgain := fun h => .ok h
  , resolveAgainForUser := fun h _ => .ok h
  , getLatestHandleForTLF := fun _ => .ok Handle.zero
  , withUpdatedConflictInfo := fun h c => .ok { h with conflictInfo := c }
  , identifyUIDSets := fun _ _ _ => .ok ()
  , makeRandomTLFEphemeralKeys := (11, 12)
  , makeRandomTLFKeys := .ok (13, 14, 15)
  , putTLFCryptKeyServerHalves := fun _ => .ok ()
  , deleteTLFCryptKeyServerHalf := fun _ _ _ => .ok ()
  , getUserDeviceKeyInfoMaps := fun _ _ => .ok ([(2, [5])], [(1, [5])])
  , promoteReader := fun m _ => .ok m
  , mdUpdateKeyGeneration := fun m _ _ _ _ _ _ => .ok (m, [(1, 2)])
  , revokeRemovedDevices := fun m _ _ => .ok (m, [])
  , addKeyGeneration := fun m _ _ _ =>
      .ok { m with view :=
        { m.view with latestKeyGeneration := m.view.latestKeyGeneration + 1 } }
  , finalizeRekey := fun m => .ok m
  , updateFromTlfHandle := fun m h => .ok { m with handle := h }
  , decryptMDPrivateData := fun _ _ => .ok 42 }

/-- A concrete in-memory metadata object for witnesses: private TLF, two
generations, readable, writer 1 and reader 2. -/
def mdW : MD :=
  { view := kmdW, handle := ⟨[1], [2], none⟩, isReadable := true,
    serializedPMDLen := 0, storesHistoricTLFCryptKeys := false,
    dataPMD := 0, tlfPrivKey := 0 }

/-- Promotion-only scenario: the re-resolved handle turns reader 2 into a
writer, all devices stay the same. -/
def envP : Env := { envW with resolveAgain := fun _ => .ok ⟨[1, 2], [], none⟩ }

/-- Reader self-enrollment scenario: the caller is reader 2, who carries a
new device 6 not yet present in the key metadata. -/
def envR : Env :=
  { envW with
      getCurrentUserInfo := .ok (0, 2),
      getCryptPublicKeys := fun u => .ok (if u = 2 then [5, 6] else [5]) }

/-- The witness metadata with no key generation yet. -/
def mdW0 : MD := { mdW with view := { kmdW with latestKeyGeneration := 0 } }

/-- Promotion scenario in which revoking the removed reader devices
reports one orphaned server half (2, 5, 30). -/
def env5 : Env :=
  { envP with
      revokeRemovedDevices := fun m _ _ => .ok (m, [(2, true, [(5, [30])])]) }

/-- A re-resolution that only changes the handle (a conflict marker that
the latest server handle then clears) together with a failing
`FinalizeRekey`. -/
def envC9 : Env :=
  { envW with
      resolveAgain := fun h => .ok { h with conflictInfo := some 9 },
      finalizeRekey := fun _ => .error 77 }

/-- The rekey state reached by `Rekey envC9 mdW false []` when the
deferred-handler region starts. -/
def stC9 : RekeyState :=
  ⟨mdW, [], [], 1, ⟨[1], [2], none⟩, true, false, false, false, false,
    [], [], [], [(1, [5])], [(2, [5])], 2, false, 11, 12⟩

/-! ## Claim theorems: key resolver -/

/-- C7: for every public TLF, every generation argument and every flag
combination, `getTLFCryptKey` returns the public sentinel key without
error, leaves the cache unchanged, and performs no observable effect at
all (in particular it consults neither the key cache nor the identity
service). -/
theorem getTLFCryptKey_public_short_circuit (env : Env) (kmd : KeyMetadata)
    (keyGen : KeyGen) (flags : GetFlags) (cache : KeyCache)
    (h : kmd.tlfID.isPublic = true) :
    getTLFCryptKey env kmd keyGen flags cache = (.ok PublicTLFCryptKey, cache, []) := by
  simp [getTLFCryptKey, h]

/-- Witness for C7: a concrete public TLF, queried at an out-of-range
generation with all flags set. -/
theorem getTLFCryptKey_public_short_circuit_witness :
    ({ kmdW with tlfID := ⟨3, true⟩ } : KeyMetadata).tlfID.isPublic = true ∧
    getTLFCryptKey envW { kmdW with tlfID := ⟨3, true⟩ } 7 ⟨true, true, true⟩
      [((⟨3, true⟩, 7), 55)] =
      (.ok PublicTLFCryptKey, [((⟨3, true⟩, 7), 55)], []) :=
  ⟨rfl, getTLFCryptKey_public_short_circuit envW _ 7 ⟨true, true, true⟩ _ rfl⟩

/-- C4: `TLFCryptKeyNotPerDeviceEncrypted` never escapes `getTLFCryptKey`
as the call's error, provided the metadata's latest generation carries
per-device key entries (the V3 invariant: only historic generations lack
them); and whenever the per-device params for the requested generation
report `NotPerDeviceEncrypted`, the call's outcome is exactly that of the
historic-recovery path (latest key from cache or per-device unwrap at the
latest generation, then the historic chain walk). -/
theorem getTLFCryptKey_npde_never_escapes (env : Env) (kmd : KeyMetadata)
    (h : ∀ u k, kmd.getTLFCryptKeyParams kmd.latestKeyGeneration u k ≠
      .notPerDeviceEncrypted) :
    (∀ gen flags cache,
      (getTLFCryptKey env kmd gen flags cache).1 ≠
        .error .notPerDeviceEncrypted) ∧
    (∀ gen flags cache username uid,
      env.getCurrentUserInfo = .ok (username, uid) →
      kmd.tlfID.isPublic = false →
      ¬ gen < FirstValidKeyGen → ¬ kmd.latestKeyGeneration < gen →
      cacheGet cache kmd.tlfID gen = none →
      getTLFCryptKeyParams env kmd gen uid flags =
        .error .notPerDeviceEncrypted →
      (getTLFCryptKey env kmd gen flags cache).1 =
        (getTLFCryptKeyHistoric env kmd gen uid flags cache).1) := by
  constructor
  · intro gen flags cache hcontra
    obtain ⟨_, _, hnp⟩ := getTLFCryptKey_err_shape hcontra
    obtain ⟨u, k, hk⟩ := hnp rfl
    exact h u k hk
  · intro gen flags cache username uid hu hpub hlo hhi hc hp
    unfold getTLFCryptKey
    simp only [hpub, Bool.false_eq_true, if_false, hlo, if_false, hhi, if_false,
      hc, hu, hp]
    cases hh : getTLFCryptKeyHistoric env kmd gen uid flags cache with
    | mk hres hevs =>
      cases hres with
      | error e => simp
      | ok k =>
        by_cases hdc : flags.doCache
        · simp [hdc]
        · simp [hdc]

/-- Witness for C4: on V3-style metadata whose generation 1 reports
`NotPerDeviceEncrypted` but whose latest generation (2) has per-device
entries, resolving generation 1 does not surface
`NotPerDeviceEncrypted`. -/
theorem getTLFCryptKey_npde_never_escapes_witness :
    (getTLFCryptKey envW kmdH 1 ⟨false, true, false⟩ []).1 ≠
      Except.error Err.notPerDeviceEncrypted :=
  (getTLFCryptKey_npde_never_escapes envW kmdH
    (fun u k => by simp [kmdH])).1 1 ⟨false, true, false⟩ []

theorem getTLFCryptKey_cache_eq (env : Env) (kmd : KeyMetadata)
    (keyGen : KeyGen) (flags : GetFlags) (cache : KeyCache) :
    (getTLFCryptKey env kmd keyGen flags cache).2.1 =
      match (getTLFCryptKey env kmd keyGen flags cache).1 with
      | .error _ => cache
      | .ok k =>
        if flags.doCache = true ∧ kmd.tlfID.isPublic = false ∧
            cacheGet cache kmd.tlfID keyGen = none
        then cachePut cache kmd.tlfID keyGen k else cache := by
  unfold getTLFCryptKey
  by_cases hpub : kmd.tlfID.isPublic
  · simp [hpub]
  · simp only [hpub, Bool.false_eq_true, if_false]
    by_cases hlo : keyGen < FirstValidKeyGen
    · simp [hlo]
    · simp only [hlo, if_false]
      by_cases hhi : kmd.latestKeyGeneration < keyGen
      · simp [hhi]
      · simp only [hhi, if_false]
        cases hc : cacheGet cache kmd.tlfID keyGen with
        | some k => simp [hc]
        | none =>
          simp only [hc]
          cases hu : env.getCurrentUserInfo with
          | error c => simp
          | ok p =>
            obtain ⟨username, uid⟩ := p
            cases hp : getTLFCryptKeyParams env kmd keyGen uid flags with
            | error e =>
              by_cases hnp : e = Err.notPerDeviceEncrypted
              · subst hnp
                cases hh : getTLFCryptKeyHistoric env kmd keyGen uid flags cache with
                | mk hres hevs =>
                  cases hres with
                  | error e2 => simp [hp, hh]
                  | ok k =>
                    by_cases hdc : flags.doCache
                    · simp [hp, hh, hdc, eq_comm (a := Bool.true)]
                    · simp [hp, hh, hdc]
              · cases e <;> simp_all
            | ok triple =>
              obtain ⟨clientHalf, shid, cpk⟩ := triple
              cases hm : unmaskTLFCryptKey env shid cpk clientHalf with
              | error e2 => simp [hp, hm]
              | ok k =>
                by_cases hdc : flags.doCache
                · simp [hp, hm, hdc, eq_comm (a := Bool.true)]
                · simp [hp, hm, hdc]

/-- C6 (counterexample to the claim as stated): with `DO_CACHE` set and a
preloaded cache entry for the requested `(tlf, gen)`, the folder key is
successfully resolved (from the cache), yet no entry is inserted: the
cache is unchanged and no cache-put event occurs.  So "inserts an entry iff
DO_CACHE is set and the key was successfully resolved" fails in the
if direction. -/
theorem getTLFCryptKey_cache_insert_iff_refuted :
    (getTLFCryptKey envW kmdW 1 ⟨false, true, false⟩ [((⟨1, false⟩, 1), 99)]).1 =
      .ok 99 ∧
    (GetFlags.mk false true false).doCache = true ∧
    (getTLFCryptKey envW kmdW 1 ⟨false, true, false⟩ [((⟨1, false⟩, 1), 99)]).2.1 =
      [((⟨1, false⟩, 1), 99)] ∧
    ((getTLFCryptKey envW kmdW 1 ⟨false, true, false⟩
        [((⟨1, false⟩, 1), 99)]).2.2.all fun e => !e.isCachePut) = true := by
  exact ⟨rfl, rfl, rfl, rfl⟩

/-- C6 (amended): `getTLFCryptKey` inserts a cache entry iff `DO_CACHE` is
set and the key was resolved through the per-device unwrap or historic
recovery path — that is, the TLF is not public and the initial cache probe
missed; on every error return, and on cache hits and public
short-circuits, the cache is left unchanged. -/
theorem getTLFCryptKey_cache_write_discipline (env : Env) (kmd : KeyMetadata)
    (keyGen : KeyGen) (flags : GetFlags) (cache : KeyCache) :
    ((∃ e, (getTLFCryptKey env kmd keyGen flags cache).1 = .error e) →
      (getTLFCryptKey env kmd keyGen flags cache).2.1 = cache) ∧
    (∀ k, (getTLFCryptKey env kmd keyGen flags cache).1 = .ok k →
      (getTLFCryptKey env kmd keyGen flags cache).2.1 =
        if flags.doCache = true ∧ kmd.tlfID.isPublic = false ∧
            cacheGet cache kmd.tlfID keyGen = none
        then cachePut cache kmd.tlfID keyGen k else cache) := by
  constructor
  · intro ⟨e, he⟩
    rw [getTLFCryptKey_cache_eq, he]
  · intro k hk
    rw [getTLFCryptKey_cache_eq, hk]

/-- Witness for C6 (amended): a fresh cache, `DO_CACHE` set, private TLF:
the resolved key is inserted at the requested pair. -/
theorem getTLFCryptKey_cache_write_discipline_witness :
    (getTLFCryptKey envW kmdW 1 ⟨false, true, false⟩ []).1 = .ok 16 ∧
    (getTLFCryptKey envW kmdW 1 ⟨false, true, false⟩ []).2.1 =
      cachePut [] kmdW.tlfID 1 16 :=
  ⟨rfl, by
    have h := (getTLFCryptKey_cache_write_discipline envW kmdW 1
      ⟨false, true, false⟩ []).2 16 rfl
    rw [h]
    rfl⟩

theorem cryptKeysFrom_spec (env : Env) (kmd : KeyMetadata) :
    ∀ (n : Nat) (g : KeyGen) (cache : KeyCache) (ks : List Nat)
      (e? : Option Err) (cOut : KeyCache),
    cryptKeysFrom env kmd g n cache = (ks, e?, cOut) →
    (e? = none → ks.length = n) ∧
    (∀ e, e? = some e → ks.length < n ∧
      ∃ c, (getTLFCryptKeyUsingCurrentDevice env kmd (g + ks.length) true c).1 =
        .error e) ∧
    (∀ i (h : i < ks.length),
      ∃ c, (getTLFCryptKeyUsingCurrentDevice env kmd (g + i) true c).1 =
        .ok (ks.get ⟨i, h⟩)) := by
  intro n
  induction n with
  | zero =>
    intro g cache ks e? cOut heq
    simp only [cryptKeysFrom, Prod.mk.injEq] at heq
    obtain ⟨rfl, rfl, rfl⟩ := heq
    refine ⟨fun _ => rfl, ?_, ?_⟩
    · intro e he; cases he
    · intro i h; simp at h
  | succ n ih =>
    intro g cache ks e? cOut heq
    unfold cryptKeysFrom at heq
    cases hg : getTLFCryptKeyUsingCurrentDevice env kmd g true cache with
    | mk res rest =>
      obtain ⟨c', evs⟩ := rest
      cases res with
      | error e =>
        simp only [hg, Prod.mk.injEq] at heq
        obtain ⟨rfl, rfl, rfl⟩ := heq
        refine ⟨?_, ?_, ?_⟩
        · intro h; cases h
        · intro e' he'
          obtain rfl : e = e' := by cases he'; rfl
          refine ⟨Nat.succ_pos n, cache, ?_⟩
          simpa using congrArg Prod.fst hg
        · intro i h; simp at h
      | ok k =>
        simp only [hg] at heq
        cases hr : cryptKeysFrom env kmd (g + 1) n c' with
        | mk ks' rest' =>
          obtain ⟨e?', c''⟩ := rest'
          simp only [hr, Prod.mk.injEq] at heq
          obtain ⟨rfl, rfl, rfl⟩ := heq
          obtain ⟨ih1, ih2, ih3⟩ := ih (g + 1) c' ks' e?' c'' hr
          refine ⟨?_, ?_, ?_⟩
          · intro h; simp [ih1 h]
          · intro e' he'
            obtain ⟨hlt, c, hc⟩ := ih2 e' he'
            refine ⟨by simpa using Nat.succ_lt_succ hlt, c, ?_⟩
            have hgen : g + (((ks'.length + 1 : Nat)) : Int) =
                g + 1 + (ks'.length : Int) := by push_cast; ring
            rw [List.length_cons, hgen]
            exact hc
          · intro i h
            match i with
            | 0 =>
              refine ⟨cache, ?_⟩
              simpa using congrArg Prod.fst hg
            | Nat.succ j =>
              have hj : j < ks'.length := Nat.lt_of_succ_lt_succ h
              obtain ⟨c, hc⟩ := ih3 j hj
              have hgen : g + ((j + 1 : Nat) : Int) = g + 1 + (j : Int) := by
                push_cast; ring
              rw [hgen]
              exact ⟨c, hc⟩

/-- C10: `GetTLFCryptKeyOfAllGenerations` returns, on success, exactly one
key per generation in ascending order from `FirstValidKeyGen` to the
latest generation; on a public TLF (latest generation `PublicKeyGen`,
below `FirstValidKeyGen`) it returns an empty list and no error; and on a
failure it returns the keys of the generations below the failing one
together with the error (the failing generation being `FirstValidKeyGen`
plus the number of keys returned). -/
theorem GetTLFCryptKeyOfAllGenerations_spec (env : Env) (kmd : KeyMetadata)
    (cache : KeyCache) :
    (kmd.latestKeyGeneration = PublicKeyGen →
      GetTLFCryptKeyOfAllGenerations env kmd cache = ([], none, cache)) ∧
    ((GetTLFCryptKeyOfAllGenerations env kmd cache).2.1 = none →
      (GetTLFCryptKeyOfAllGenerations env kmd cache).1.length =
        (kmd.latestKeyGeneration - FirstValidKeyGen + 1).toNat) ∧
    (∀ e, (GetTLFCryptKeyOfAllGenerations env kmd cache).2.1 = some e →
      ∃ c, (getTLFCryptKeyUsingCurrentDevice env kmd
        (FirstValidKeyGen +
          (GetTLFCryptKeyOfAllGenerations env kmd cache).1.length) true c).1 =
            .error e) ∧
    (∀ i (h : i < (GetTLFCryptKeyOfAllGenerations env kmd cache).1.length),
      ∃ c, (getTLFCryptKeyUsingCurrentDevice env kmd
        (FirstValidKeyGen + i) true c).1 =
          .ok ((GetTLFCryptKeyOfAllGenerations env kmd cache).1.get ⟨i, h⟩)) := by
  cases heq : GetTLFCryptKeyOfAllGenerations env kmd cache with
  | mk ks rest =>
    obtain ⟨e?, cOut⟩ := rest
    have hspec := cryptKeysFrom_spec env kmd
      (kmd.latestKeyGeneration - FirstValidKeyGen + 1).toNat
      FirstValidKeyGen cache ks e? cOut heq
    obtain ⟨h1, h2, h3⟩ := hspec
    refine ⟨fun hpub => ?_, ?_, ?_, ?_⟩
    · rw [← heq]
      show cryptKeysFrom env kmd FirstValidKeyGen
        (kmd.latestKeyGeneration - FirstValidKeyGen + 1).toNat cache =
          ([], none, cache)
      rw [hpub]
      norm_num [PublicKeyGen, FirstValidKeyGen, cryptKeysFrom]
    · simp only [heq]
      exact h1
    · simp only [heq]
      intro e he
      exact (h2 e he).2
    · simp only [heq]
      exact h3

/-- Witness for C10: on a two-generation private TLF with an all-success
environment the call returns exactly two keys and no error; on a public
TLF it returns the empty list, no error, and an unchanged cache. -/
theorem GetTLFCryptKeyOfAllGenerations_spec_witness :
    (GetTLFCryptKeyOfAllGenerations envW kmdW []).1.length = 2 ∧
    GetTLFCryptKeyOfAllGenerations envW
      { kmdW with tlfID := ⟨3, true⟩, latestKeyGeneration := PublicKeyGen }
      [] = ([], none, []) :=
  ⟨(GetTLFCryptKeyOfAllGenerations_spec envW kmdW []).2.1 rfl,
   (GetTLFCryptKeyOfAllGenerations_spec envW
     { kmdW with tlfID := ⟨3, true⟩, latestKeyGeneration := PublicKeyGen }
     []).1 rfl⟩

/-! ## Trace utilities -/

/-- A trace with no `addKeyGen` events. -/
def noAdd (t : List Event) : Bool := t.all fun e => !e.isAdd

/-- A trace with no `deleteServerHalf` events. -/
def noDel (t : List Event) : Bool := t.all fun e => !e.isDel

/-- A trace with neither `addKeyGen` nor `deleteServerHalf` events. -/
def quiet (t : List Event) : Bool := t.all fun e => !e.isAdd && !e.isDel

theorem quiet_noAdd {t : List Event} (h : quiet t = true) : noAdd t = true := by
  simp only [quiet, List.all_eq_true, Bool.and_eq_true] at h
  simp only [noAdd, List.all_eq_true]
  exact fun e he => (h e he).1

theorem quiet_noDel {t : List Event} (h : quiet t = true) : noDel t = true := by
  simp only [quiet, List.all_eq_true, Bool.and_eq_true] at h
  simp only [noDel, List.all_eq_true]
  exact fun e he => (h e he).2

theorem quiet_append {t1 t2 : List Event} (h1 : quiet t1 = true)
    (h2 : quiet t2 = true) : quiet (t1 ++ t2) = true := by
  simp only [quiet, List.all_append, Bool.and_eq_true]
  exact ⟨h1, h2⟩

theorem quiet_cons {e : Event} {t : List Event}
    (h1 : e.isAdd = false) (h2 : e.isDel = false) (h3 : quiet t = true) :
    quiet (e :: t) = true := by
  unfold quiet at h3 ⊢
  rw [List.all_cons]
  simp [h1, h2, h3]

theorem noAdd_append {t1 t2 : List Event} (h1 : noAdd t1 = true)
    (h2 : noAdd t2 = true) : noAdd (t1 ++ t2) = true := by
  simp only [noAdd, List.all_append, Bool.and_eq_true]
  exact ⟨h1, h2⟩

theorem noDel_append {t1 t2 : List Event} (h1 : noDel t1 = true)
    (h2 : noDel t2 = true) : noDel (t1 ++ t2) = true := by
  simp only [noDel, List.all_append, Bool.and_eq_true]
  exact ⟨h1, h2⟩

theorem noAdd_not_mem {t : List Event} (h : noAdd t = true) (g : KeyGen) :
    Event.addKeyGen g ∉ t := by
  intro hmem
  simp only [noAdd, List.all_eq_true] at h
  simpa [Event.isAdd] using h _ hmem

theorem quiet_not_mem_add {t : List Event} (h : quiet t = true) (g : KeyGen) :
    Event.addKeyGen g ∉ t := noAdd_not_mem (quiet_noAdd h) g

theorem mem_add_append_quiet {t δ : List Event} (h : quiet δ = true) (g : KeyGen) :
    Event.addKeyGen g ∈ t ++ δ ↔ Event.addKeyGen g ∈ t := by
  rw [List.mem_append]
  constructor
  · rintro (hm | hm)
    · exact hm
    · exact absurd hm (quiet_not_mem_add h g)
  · exact fun hm => .inl hm

/-- A trace that splits into a prefix without `addKeyGen` and a suffix
without `deleteServerHalf` satisfies `noDeleteAfterAdd`. -/
theorem noDeleteAfterAdd_split : ∀ {t1 t2 : List Event}, noAdd t1 = true →
    noDel t2 = true → noDeleteAfterAdd (t1 ++ t2) = true := by
  intro t1
  induction t1 with
  | nil =>
    intro t2 _ h2
    simp only [List.nil_append]
    induction t2 with
    | nil => rfl
    | cons e rest ih =>
      simp only [noDel, List.all_cons, Bool.and_eq_true] at h2
      unfold noDeleteAfterAdd
      by_cases ha : e.isAdd
      · simp only [ha, if_true]
        exact h2.2
      · simp only [ha, if_false]
        exact ih h2.2
  | cons e rest ih =>
    intro t2 h1 h2
    simp only [noAdd, List.all_cons, Bool.and_eq_true] at h1
    simp only [List.cons_append]
    unfold noDeleteAfterAdd
    have : e.isAdd = false := by
      cases hb : e.isAdd
      · rfl
      · rw [hb] at h1; exact absurd h1.1 (by simp)
    simp only [this, Bool.false_eq_true, if_false]
    exact ih (by simpa [noAdd] using h1.2) h2

/-! ## Event lemmas for the resolver and rekey helpers -/


theorem getTLFCryptKeyHistoric_events (env : Env) (kmd : KeyMetadata)
    (g : KeyGen) (uid : UID) (flags : GetFlags) (cache : KeyCache) :
    quiet (getTLFCryptKeyHistoric env kmd g uid flags cache).2 = true := by
  unfold getTLFCryptKeyHistoric
  dsimp only
  repeat first | rfl | split

theorem getTLFCryptKey_events (env : Env) (kmd : KeyMetadata) (g : KeyGen)
    (flags : GetFlags) (cache : KeyCache) :
    quiet (getTLFCryptKey env kmd g flags cache).2.2 = true := by
  unfold getTLFCryptKey
  by_cases hpub : kmd.tlfID.isPublic
  · simp [hpub, quiet]
  · simp only [hpub, Bool.false_eq_true, if_false]
    by_cases hlo : g < FirstValidKeyGen
    · simp [hlo, quiet]
    · simp only [hlo, if_false]
      by_cases hhi : kmd.latestKeyGeneration < g
      · simp [hhi, quiet]
      · simp only [hhi, if_false]
        cases hc : cacheGet cache kmd.tlfID g with
        | some k => simp [quiet, Event.isAdd, Event.isDel]
        | none =>
          cases hu : env.getCurrentUserInfo with
          | error c => simp [quiet, Event.isAdd, Event.isDel]
          | ok p =>
            obtain ⟨username, uid⟩ := p
            cases hp : getTLFCryptKeyParams env kmd g uid flags with
            | error e =>
              by_cases hnp : e = Err.notPerDeviceEncrypted
              · subst hnp
                cases hh : getTLFCryptKeyHistoric env kmd g uid flags cache with
                | mk hres hevs =>
                  have hq : quiet hevs = true := by
                    have hl := getTLFCryptKeyHistoric_events env kmd g uid flags cache
                    rw [hh] at hl
                    exact hl
                  cases hres with
                  | error e2 =>
                    simp only [hp, hh]
                    simpa [quiet, Event.isAdd, Event.isDel] using hq
                  | ok k =>
                    by_cases hdc : flags.doCache
                    · simp only [hp, hh, hdc, if_true]
                      simpa [quiet, Event.isAdd, Event.isDel, Event.isCachePut] using hq
                    · simp only [hp, hh, hdc, Bool.false_eq_true, if_false]
                      simpa [quiet, Event.isAdd, Event.isDel] using hq
              · cases e <;> simp_all [quiet, Event.isAdd, Event.isDel]
            | ok triple =>
              obtain ⟨clientHalf, shid, cpk⟩ := triple
              cases hm : unmaskTLFCryptKey env shid cpk clientHalf with
              | error e2 => simp [hp, hm, quiet, Event.isAdd, Event.isDel]
              | ok k =>
                by_cases hdc : flags.doCache
                · simp [hp, hm, hdc, quiet, Event.isAdd, Event.isDel]
                · simp [hp, hm, hdc, quiet, Event.isAdd, Event.isDel]

theorem updateKeyGeneration_events (env : Env) (md : MD) (keyGen : KeyGen)
    (wKeys rKeys : UserDevicePublicKeys) (ePubKey ePrivKey : Nat)
    (tlfCryptKey : Nat) :
    quiet (updateKeyGeneration env md keyGen wKeys rKeys ePubKey ePrivKey
      tlfCryptKey).2 = true := by
  unfold updateKeyGeneration
  repeat first | rfl | split

theorem promoteLoop_events (env : Env) :
    ∀ (us : List UID) (md : MD), quiet (promoteLoop env md us).2.2 = true := by
  intro us
  induction us with
  | nil => intro md; rfl
  | cons u rest ih =>
    intro md
    unfold promoteLoop
    cases hp : env.promoteReader md u with
    | error e => rfl
    | ok md' =>
      dsimp only
      cases hr : promoteLoop env md' rest with
      | mk e? p =>
        obtain ⟨md'', evs⟩ := p
        have hq := ih md'
        rw [hr] at hq
        exact quiet_cons rfl rfl hq

theorem rewrapLoop_events (env : Env) (wKeys rKeys : UserDevicePublicKeys)
    (ePubKey ePrivKey : Nat) (pp : Bool) :
    ∀ (n : Nat) (g : KeyGen) (md : MD) (cache : KeyCache),
    quiet (rewrapLoop env wKeys rKeys ePubKey ePrivKey pp n g md cache).2.2.2 = true := by
  intro n
  induction n with
  | zero => intro g md cache; rfl
  | succ n ih =>
    intro g md cache
    unfold rewrapLoop
    cases hg : getTLFCryptKey env md.view g ⟨true, false, pp⟩ cache with
    | mk res p =>
      obtain ⟨c', evs⟩ := p
      have hqg : quiet evs = true := by
        have hl := getTLFCryptKey_events env md.view g ⟨true, false, pp⟩ cache
        rw [hg] at hl
        exact hl
      cases res with
      | error e => simpa using hqg
      | ok key =>
        dsimp only
        cases hup : updateKeyGeneration env md g wKeys rKeys ePubKey ePrivKey key with
        | mk ur evsU =>
          have hqu : quiet evsU = true := by
            have hl := updateKeyGeneration_events env md g wKeys rKeys ePubKey
              ePrivKey key
            rw [hup] at hl
            exact hl
          cases ur with
          | error eu =>
            cases eu
            case notPerDeviceEncrypted =>
              dsimp only
              cases hr : rewrapLoop env wKeys rKeys ePubKey ePrivKey pp n (g + 1) md c' with
              | mk e? p2 =>
                obtain ⟨md', c'', evs'⟩ := p2
                have hq' := ih (g + 1) md c'
                rw [hr] at hq'
                dsimp only
                exact quiet_append (quiet_append hqg hqu) hq'
            all_goals
              dsimp only
              exact quiet_append hqg hqu
          | ok md1 =>
            dsimp only
            cases hr : rewrapLoop env wKeys rKeys ePubKey ePrivKey pp n (g + 1) md1 c' with
            | mk e? p2 =>
              obtain ⟨md', c'', evs'⟩ := p2
              have hq' := ih (g + 1) md1 c'
              rw [hr] at hq'
              dsimp only
              exact quiet_append (quiet_append hqg hqu) hq'

theorem processDeletes_noAdd (env : Env) :
    ∀ l, noAdd (processDeletes env l).2 = true := by
  intro l
  induction l with
  | nil => rfl
  | cons x rest ih =>
    obtain ⟨u, k, sh⟩ := x
    unfold processDeletes
    cases hd : env.deleteTLFCryptKeyServerHalf u k sh with
    | error e => rfl
    | ok r =>
      cases hr : processDeletes env rest with
      | mk e? evs =>
        rw [hr] at ih
        simpa [noAdd, Event.isAdd] using ih

theorem processDeletes_ok_events (env : Env) :
    ∀ l, (processDeletes env l).1 = none →
    (processDeletes env l).2 =
      l.map fun x => Event.deleteServerHalf x.1 x.2.1 x.2.2 := by
  intro l
  induction l with
  | nil => intro _; rfl
  | cons x rest ih =>
    obtain ⟨u, k, sh⟩ := x
    intro hok
    unfold processDeletes at hok ⊢
    cases hd : env.deleteTLFCryptKeyServerHalf u k sh with
    | error e =>
      rw [hd] at hok
      dsimp only at hok
      cases hok
    | ok r =>
      rw [hd] at hok
      dsimp only at hok ⊢
      cases hr : processDeletes env rest with
      | mk e? evs =>
        rw [hr] at hok
        dsimp only at hok ⊢
        subst hok
        rw [List.map_cons]
        congr 1
        have h2 := ih (by rw [hr])
        rw [hr] at h2
        exact h2

theorem updateKeyGeneration_err_shape {env : Env} {md : MD} {keyGen : KeyGen}
    {wKeys rKeys : UserDevicePublicKeys} {ePubKey ePrivKey tlfCryptKey : Nat}
    {e : Err} {evs : List Event}
    (h : updateKeyGeneration env md keyGen wKeys rKeys ePubKey ePrivKey
      tlfCryptKey = (.error e, evs)) :
    e = .notPerDeviceEncrypted ∨ ∃ c, e = .ext c := by
  unfold updateKeyGeneration at h
  cases hm : env.mdUpdateKeyGeneration md keyGen wKeys rKeys ePubKey ePrivKey
      tlfCryptKey with
  | error eu =>
    cases eu with
    | notPerDeviceEncrypted => rw [hm] at h; cases h; exact .inl rfl
    | ext c => rw [hm] at h; cases h; exact .inr ⟨c, rfl⟩
  | ok p =>
    obtain ⟨md', halves⟩ := p
    rw [hm] at h
    dsimp only at h
    cases hp : env.putTLFCryptKeyServerHalves halves with
    | error c => rw [hp] at h; cases h; exact .inr ⟨c, rfl⟩
    | ok u => rw [hp] at h; cases h

theorem rekeyMainTail_spec (env : Env) (st : RekeyState) (md1 : MD)
    (trace : List Event) (ids : List (UID × KID × Nat)) :
    (rekeyMainTail env st md1 trace ids).removalIDs = ids ∧
    (∃ δ, (rekeyMainTail env st md1 trace ids).trace = trace ++ δ ∧
      noDel δ = true) ∧
    ((rekeyMainTail env st md1 trace ids).err = none →
      (rekeyMainTail env st md1 trace ids).mdChanged = true ∧
      (rekeyMainTail env st md1 trace ids).cryptKey.isSome = true ∧
      ∃ g, Event.addKeyGen g ∈ (rekeyMainTail env st md1 trace ids).trace) ∧
    (∀ e, (rekeyMainTail env st md1 trace ids).err = some e →
      e ≠ .rekeyIncomplete ∧
      (rekeyMainTail env st md1 trace ids).cryptKey = none ∧
      (rekeyMainTail env st md1 trace ids).mdChanged = false) := by
  unfold rekeyMainTail
  cases hrk : env.makeRandomTLFKeys with
  | error e =>
    refine ⟨rfl, ⟨[], by simp, rfl⟩, ?_, ?_⟩
    · intro h; cases h
    · intro e' he'
      cases he'
      exact ⟨(by intro h'; cases h'), rfl, rfl⟩
  | ok triple =>
    obtain ⟨pubKey, privKey, tlfCryptKey⟩ := triple
    dsimp only
    -- case analysis on the previous-key step
    by_cases hsh : md1.storesHistoricTLFCryptKeys
    · simp only [hsh, if_true]
      by_cases hfk : FirstValidKeyGen ≤ st.currKeyGen
      · simp only [hfk, if_true]
        cases hg : getTLFCryptKey env md1.view st.currKeyGen
            ⟨true, false, st.promptPaper⟩ st.cache with
        | mk res p =>
          obtain ⟨c', evs⟩ := p
          have hqe : quiet evs = true := by
            have hl := getTLFCryptKey_events env md1.view st.currKeyGen
              ⟨true, false, st.promptPaper⟩ st.cache
            rw [hg] at hl
            exact hl
          cases res with
          | error e =>
            dsimp only
            refine ⟨rfl, ⟨evs, rfl, quiet_noDel hqe⟩, ?_, ?_⟩
            · intro h; cases h
            · intro e' he'
              cases he'
              refine ⟨?_, rfl, rfl⟩
              have hshape := getTLFCryptKey_err_shape (e := e) (by rw [hg])
              exact hshape.1
          | ok prevKey =>
            dsimp only
            cases ha : env.addKeyGeneration md1 prevKey tlfCryptKey pubKey with
            | error e2 =>
              refine ⟨rfl, ⟨evs, rfl, quiet_noDel hqe⟩, ?_, ?_⟩
              · intro h; cases h
              · intro e' he'
                cases he'
                exact ⟨(by intro h'; cases h'), rfl, rfl⟩
            | ok md2 =>
              dsimp only
              cases hupd : updateKeyGeneration env md2
                  md2.view.latestKeyGeneration st.wKeys st.rKeys st.ePubKey
                  st.ePrivKey tlfCryptKey with
              | mk ur evsU =>
                have hqu : quiet evsU = true := by
                  have hl := updateKeyGeneration_events env md2
                    md2.view.latestKeyGeneration st.wKeys st.rKeys st.ePubKey
                    st.ePrivKey tlfCryptKey
                  rw [hupd] at hl
                  exact hl
                cases ur with
                | error e3 =>
                  dsimp only
                  refine ⟨rfl, ⟨evs ++ [.addKeyGen md2.view.latestKeyGeneration]
                      ++ evsU, by simp, ?_⟩, ?_, ?_⟩
                  · refine noDel_append (noDel_append (quiet_noDel hqe) ?_)
                      (quiet_noDel hqu)
                    rfl
                  · intro h; cases h
                  · intro e' he'
                    cases he'
                    refine ⟨?_, rfl, rfl⟩
                    rcases updateKeyGeneration_err_shape hupd with rfl | ⟨c, rfl⟩
                    · intro h'; cases h'
                    · intro h'; cases h'
                | ok md3 =>
                  dsimp only
                  refine ⟨rfl, ⟨evs ++ [.addKeyGen md2.view.latestKeyGeneration]
                      ++ evsU, by simp, ?_⟩, ?_, ?_⟩
                  · refine noDel_append (noDel_append (quiet_noDel hqe) ?_)
                      (quiet_noDel hqu)
                    rfl
                  · intro _
                    refine ⟨rfl, rfl, md2.view.latestKeyGeneration, ?_⟩
                    simp
                  · intro e' he'; cases he'
      · simp only [hfk, if_false]
        cases ha : env.addKeyGeneration md1 0 tlfCryptKey pubKey with
        | error e2 =>
          refine ⟨rfl, ⟨[], by simp, rfl⟩, ?_, ?_⟩
          · intro h; cases h
          · intro e' he'
            cases he'
            exact ⟨(by intro h'; cases h'), rfl, rfl⟩
        | ok md2 =>
          try dsimp only
          cases hupd : updateKeyGeneration env md2
              md2.view.latestKeyGeneration st.wKeys st.rKeys st.ePubKey
              st.ePrivKey tlfCryptKey with
          | mk ur evsU =>
            have hqu : quiet evsU = true := by
              have hl := updateKeyGeneration_events env md2
                md2.view.latestKeyGeneration st.wKeys st.rKeys st.ePubKey
                st.ePrivKey tlfCryptKey
              rw [hupd] at hl
              exact hl
            cases ur with
            | error e3 =>
              dsimp only
              refine ⟨rfl, ⟨[] ++ [.addKeyGen md2.view.latestKeyGeneration]
                  ++ evsU, by simp, ?_⟩, ?_, ?_⟩
              · exact noDel_append (noDel_append rfl rfl) (quiet_noDel hqu)
              · intro h; cases h
              · intro e' he'
                cases he'
                refine ⟨?_, rfl, rfl⟩
                rcases updateKeyGeneration_err_shape hupd with rfl | ⟨c, rfl⟩
                · intro h'; cases h'
                · intro h'; cases h'
            | ok md3 =>
              dsimp only
              refine ⟨rfl, ⟨[] ++ [.addKeyGen md2.view.latestKeyGeneration]
                  ++ evsU, by simp, ?_⟩, ?_, ?_⟩
              · exact noDel_append (noDel_append rfl rfl) (quiet_noDel hqu)
              · intro _
                refine ⟨rfl, rfl, md2.view.latestKeyGeneration, ?_⟩
                simp
              · intro e' he'; cases he'
    · simp only [hsh, Bool.false_eq_true, if_false]
      cases ha : env.addKeyGeneration md1 0 0 pubKey with
      | error e2 =>
        refine ⟨rfl, ⟨[], by simp, rfl⟩, ?_, ?_⟩
        · intro h; cases h
        · intro e' he'
          cases he'
          exact ⟨(by intro h'; cases h'), rfl, rfl⟩
      | ok md2 =>
        try dsimp only
        cases hupd : updateKeyGeneration env md2
            md2.view.latestKeyGeneration st.wKeys st.rKeys st.ePubKey
            st.ePrivKey tlfCryptKey with
        | mk ur evsU =>
          have hqu : quiet evsU = true := by
            have hl := updateKeyGeneration_events env md2
              md2.view.latestKeyGeneration st.wKeys st.rKeys st.ePubKey
              st.ePrivKey tlfCryptKey
            rw [hupd] at hl
            exact hl
          cases ur with
          | error e3 =>
            dsimp only
            refine ⟨rfl, ⟨[] ++ [.addKeyGen md2.view.latestKeyGeneration]
                ++ evsU, by simp, ?_⟩, ?_, ?_⟩
            · exact noDel_append (noDel_append rfl rfl) (quiet_noDel hqu)
            · intro h; cases h
            · intro e' he'
              cases he'
              refine ⟨?_, rfl, rfl⟩
              rcases updateKeyGeneration_err_shape hupd with rfl | ⟨c, rfl⟩
              · intro h'; cases h'
              · intro h'; cases h'
          | ok md3 =>
            dsimp only
            refine ⟨rfl, ⟨[] ++ [.addKeyGen md2.view.latestKeyGeneration]
                ++ evsU, by simp, ?_⟩, ?_, ?_⟩
            · exact noDel_append (noDel_append rfl rfl) (quiet_noDel hqu)
            · intro _
              refine ⟨rfl, rfl, md2.view.latestKeyGeneration, ?_⟩
              simp
            · intro e' he'; cases he'

theorem processDeletes_err_shape (env : Env) :
    ∀ l e, (processDeletes env l).1 = some e → ∃ c, e = .ext c := by
  intro l
  induction l with
  | nil => intro e h; cases h
  | cons x rest ih =>
    obtain ⟨u, k, sh⟩ := x
    intro e h
    unfold processDeletes at h
    cases hd : env.deleteTLFCryptKeyServerHalf u k sh with
    | error c =>
      rw [hd] at h
      dsimp only at h
      cases h
      exact ⟨c, rfl⟩
    | ok r =>
      rw [hd] at h
      dsimp only at h
      cases hr : processDeletes env rest with
      | mk e? evs =>
        rw [hr] at h
        dsimp only at h
        apply ih
        rw [hr]
        exact h

theorem noAdd_notify : noAdd [Event.notify] = true := rfl

theorem rekeyMain_spec (env : Env) (st : RekeyState)
    (hq : quiet st.trace = true) :
    (∃ t1 t2, (rekeyMain env st).trace = t1 ++ t2 ∧ noAdd t1 = true ∧
      noDel t2 = true) ∧
    ((∃ g, Event.addKeyGen g ∈ (rekeyMain env st).trace) →
      ∀ x ∈ (rekeyMain env st).removalIDs,
        Event.deleteServerHalf x.1 x.2.1 x.2.2 ∈ (rekeyMain env st).trace) ∧
    ((rekeyMain env st).err = none ∨
        (rekeyMain env st).err = some .rekeyIncomplete →
      ((rekeyMain env st).cryptKey ≠ none ↔
        ∃ g, Event.addKeyGen g ∈ (rekeyMain env st).trace)) ∧
    ((rekeyMain env st).err = none → (rekeyMain env st).mdChanged = true) ∧
    ((rekeyMain env st).err = none →
      ((∃ g, Event.addKeyGen g ∈ (rekeyMain env st).trace) ↔
        (st.isWriter = true ∧ st.incKeyGen = true))) ∧
    ((rekeyMain env st).err = none → st.isWriter = false →
      st.incKeyGen = false) := by
  unfold rekeyMain
  cases hw : st.isWriter with
  | false =>
    simp only [hw, Bool.not_false, if_true]
    by_cases hcond : st.newReaderUsers ≠ [] ∨ st.addNewWriterDevice = true ∨
        st.incKeyGen = true
    · simp only [if_pos hcond]
      refine ⟨⟨st.trace, [], by simp, quiet_noAdd hq, rfl⟩, ?_, ?_, ?_, ?_, ?_⟩
      · intro _ x hx
        simp at hx
      · intro _
        constructor
        · intro hck; exact absurd rfl hck
        · intro ⟨g, hg⟩
          exact absurd hg (quiet_not_mem_add hq g)
      · intro h; cases h
      · intro h; cases h
      · intro h; cases h
    · simp only [if_neg hcond]
      refine ⟨⟨st.trace, [], by simp, quiet_noAdd hq, rfl⟩, ?_, ?_, ?_, ?_, ?_⟩
      · intro _ x hx
        simp at hx
      · intro _
        constructor
        · intro hck; exact absurd rfl hck
        · intro ⟨g, hg⟩
          exact absurd hg (quiet_not_mem_add hq g)
      · intro _; trivial
      · intro _
        constructor
        · intro ⟨g, hg⟩
          exact absurd hg (quiet_not_mem_add hq g)
        · intro ⟨hw', _⟩
          simp at hw'
      · intro _ _
        push_neg at hcond
        cases hb : st.incKeyGen
        · rfl
        · exact absurd hb hcond.2.2
  | true =>
    simp only [hw, Bool.not_true, Bool.false_eq_true, if_false]
    cases hinc : st.incKeyGen with
    | false =>
      simp only [hinc, Bool.not_false, if_true]
      refine ⟨⟨st.trace, [], by simp, quiet_noAdd hq, rfl⟩, ?_, ?_, ?_, ?_, ?_⟩
      · intro _ x hx
        simp at hx
      · intro _
        constructor
        · intro hck; exact absurd rfl hck
        · intro ⟨g, hg⟩
          exact absurd hg (quiet_not_mem_add hq g)
      · intro _; trivial
      · intro _
        constructor
        · intro ⟨g, hg⟩
          exact absurd hg (quiet_not_mem_add hq g)
        · intro ⟨_, hinc'⟩
          simp at hinc'
      · intro _ h
        simp at h
    | true =>
      simp only [hinc, Bool.not_true, Bool.false_eq_true, if_false]
      by_cases hck : FirstValidKeyGen ≤ st.currKeyGen
      · simp only [if_pos hck]
        cases hrev : env.revokeRemovedDevices st.md st.wKeys st.rKeys with
        | error e =>
          refine ⟨⟨st.trace ++ [.notify], [], by simp,
            noAdd_append (quiet_noAdd hq) noAdd_notify, rfl⟩, ?_, ?_, ?_, ?_, ?_⟩
          · intro _ x hx
            simp at hx
          · intro hS
            rcases hS with h | h <;> cases h
          · intro h; cases h
          · intro h; cases h
          · intro h; cases h
        | ok p =>
          obtain ⟨md1, ri⟩ := p
          dsimp only
          cases hdel : processDeletes env (flattenRemovalInfo ri) with
          | mk de? evsD =>
            have hdna : noAdd evsD = true := by
              have hl := processDeletes_noAdd env (flattenRemovalInfo ri)
              rw [hdel] at hl
              exact hl
            cases de? with
            | some e =>
              dsimp only
              have hext : ∃ c, e = Err.ext c :=
                processDeletes_err_shape env (flattenRemovalInfo ri) e
                  (by rw [hdel])
              refine ⟨⟨st.trace ++ [.notify] ++ evsD, [], by simp,
                noAdd_append (noAdd_append (quiet_noAdd hq) noAdd_notify) hdna, rfl⟩,
                ?_, ?_, ?_, ?_, ?_⟩
              · intro ⟨g, hg⟩
                have : noAdd (st.trace ++ [.notify] ++ evsD) = true :=
                  noAdd_append (noAdd_append (quiet_noAdd hq) noAdd_notify) hdna
                exact absurd hg (noAdd_not_mem this g)
              · intro hS
                obtain ⟨c, rfl⟩ := hext
                rcases hS with h | h <;> cases h
              · intro h; cases h
              · intro h; cases h
              · intro h; cases h
            | none =>
              dsimp only
              obtain ⟨hrm, ⟨δ, hδ, hδd⟩, hok, herr⟩ :=
                rekeyMainTail_spec env st md1 (st.trace ++ [.notify] ++ evsD)
                  (flattenRemovalInfo ri)
              have hdevs : evsD = (flattenRemovalInfo ri).map
                  fun x => Event.deleteServerHalf x.1 x.2.1 x.2.2 := by
                have hl := processDeletes_ok_events env (flattenRemovalInfo ri)
                  (by rw [hdel])
                rw [hdel] at hl
                exact hl
              refine ⟨⟨st.trace ++ [.notify] ++ evsD, δ, by rw [hδ],
                noAdd_append (noAdd_append (quiet_noAdd hq) noAdd_notify) hdna, hδd⟩,
                ?_, ?_, ?_, ?_, ?_⟩
              · intro _ x hx
                rw [hrm] at hx
                rw [hδ]
                have hmem : Event.deleteServerHalf x.1 x.2.1 x.2.2 ∈ evsD := by
                  rw [hdevs]
                  exact List.mem_map_of_mem _ hx
                refine List.mem_append.mpr (.inl ?_)
                exact List.mem_append.mpr (.inr hmem)
              · intro hS
                have herrn : (rekeyMainTail env st md1
                    (st.trace ++ [.notify] ++ evsD)
                    (flattenRemovalInfo ri)).err = none := by
                  rcases hS with h | h
                  · exact h
                  · exact absurd ((herr _ h).1) (by simp)
                obtain ⟨_, hsome, g, hg⟩ := hok herrn
                constructor
                · intro _; exact ⟨g, hg⟩
                · intro _
                  intro hn
                  rw [hn] at hsome
                  cases hsome
              · intro h
                exact (hok h).1
              · intro h
                obtain ⟨_, _, g, hg⟩ := hok h
                exact ⟨fun _ => ⟨trivial, trivial⟩, fun _ => ⟨g, hg⟩⟩
              · intro _ h
                simp at h
      · simp only [if_neg hck]
        obtain ⟨hrm, ⟨δ, hδ, hδd⟩, hok, herr⟩ :=
          rekeyMainTail_spec env st st.md (st.trace ++ [.notify]) []
        refine ⟨⟨st.trace ++ [.notify], δ, by rw [hδ],
          noAdd_append (quiet_noAdd hq) noAdd_notify, hδd⟩, ?_, ?_, ?_, ?_, ?_⟩
        · intro _ x hx
          rw [hrm] at hx
          simp at hx
        · intro hS
          have herrn : (rekeyMainTail env st st.md
              (st.trace ++ [.notify]) []).err = none := by
            rcases hS with h | h
            · exact h
            · exact absurd ((herr _ h).1) (by simp)
          obtain ⟨_, hsome, g, hg⟩ := hok herrn
          constructor
          · intro _; exact ⟨g, hg⟩
          · intro _
            intro hn
            rw [hn] at hsome
            cases hsome
        · intro h
          exact (hok h).1
        · intro h
          obtain ⟨_, _, g, hg⟩ := hok h
          exact ⟨fun _ => ⟨trivial, trivial⟩, fun _ => ⟨g, hg⟩⟩
        · intro _ h
          simp at h

theorem rekeyDefers_spec (env : Env) (rh : Handle) (r : RekeyResult) :
    (rekeyDefers env rh r).removalIDs = r.removalIDs ∧
    (∃ δ, (rekeyDefers env rh r).trace = r.trace ++ δ ∧ quiet δ = true) ∧
    ((rekeyDefers env rh r).err = none ∨
        (rekeyDefers env rh r).err = some .rekeyIncomplete →
      (r.err = none ∨ r.err = some .rekeyIncomplete) ∧
      (rekeyDefers env rh r).cryptKey = r.cryptKey ∧
      (rekeyDefers env rh r).mdChanged = r.mdChanged) ∧
    ((rekeyDefers env rh r).err = none → r.err = none) := by
  unfold rekeyDefers
  by_cases h1 : r.mdChanged = true ∧ (r.err = none ∨ r.err = some .rekeyIncomplete)
  · simp only [if_pos h1]
    cases hf : env.finalizeRekey r.md with
    | ok md' =>
      dsimp only
      by_cases h2 : r.err = none ∨ r.err = some Err.rekeyIncomplete
      · simp only [if_pos h2]
        cases hu : env.updateFromTlfHandle md' rh with
        | ok md'' =>
          dsimp only
          refine ⟨by trivial, ⟨[.finalize] ++ [.updateHandle], by simp, by rfl⟩, ?_, ?_⟩
          · intro _
            exact ⟨h2, by trivial, by trivial⟩
          · intro h
            exact h
        | error e =>
          dsimp only
          refine ⟨by trivial, ⟨[.finalize] ++ [.updateHandle], by simp, by rfl⟩, ?_, ?_⟩
          · intro hS
            rcases hS with h | h <;> cases h
          · intro h; cases h
      · exact absurd h1.2 h2
    | error e =>
      dsimp only
      simp only [if_neg (by simp : ¬(some (Err.ext e) = none ∨
        some (Err.ext e) = some Err.rekeyIncomplete))]
      refine ⟨by trivial, ⟨[.finalize], by rfl, by rfl⟩, ?_, ?_⟩
      · intro hS
        rcases hS with h | h <;> cases h
      · intro h; cases h
  · simp only [if_neg h1]
    by_cases h2 : r.err = none ∨ r.err = some Err.rekeyIncomplete
    · simp only [if_pos h2]
      cases hu : env.updateFromTlfHandle r.md rh with
      | ok md'' =>
        dsimp only
        refine ⟨by trivial, ⟨[.updateHandle], by rfl, by rfl⟩, ?_, ?_⟩
        · intro _
          exact ⟨h2, by trivial, by trivial⟩
        · intro h
          rcases h2 with h' | h'
          · exact h'
          · rw [h'] at h ⊢
            exact h
      | error e =>
        dsimp only
        refine ⟨by trivial, ⟨[.updateHandle], by rfl, by rfl⟩, ?_, ?_⟩
        · intro hS
          rcases hS with h | h <;> cases h
        · intro h; cases h
    · simp only [if_neg h2]
      refine ⟨by trivial, ⟨[], by simp, by rfl⟩, ?_, ?_⟩
      · intro hS
        exact ⟨hS, by trivial, by trivial⟩
      · intro h
        exact h

/-- The behavioural invariants that the post-diff phases of `Rekey`
maintain: the trace splits into a delete-free suffix after the last
possible `addKeyGen`; a generation bump implies every reported
server-half id was deleted; on success or `RekeyIncompleteError` the
returned crypt key is present iff a generation was added; success implies
the metadata changed; and on success a generation was added iff the caller
is a writer and the diff demanded a new generation. -/
def SpecR (r : RekeyResult) (isW incG : Bool) : Prop :=
  (∃ t1 t2, r.trace = t1 ++ t2 ∧ noAdd t1 = true ∧ noDel t2 = true) ∧
  ((∃ g, Event.addKeyGen g ∈ r.trace) →
    ∀ x ∈ r.removalIDs, Event.deleteServerHalf x.1 x.2.1 x.2.2 ∈ r.trace) ∧
  (r.err = none ∨ r.err = some .rekeyIncomplete →
    (r.cryptKey ≠ none ↔ ∃ g, Event.addKeyGen g ∈ r.trace)) ∧
  (r.err = none → r.mdChanged = true) ∧
  (r.err = none →
    ((∃ g, Event.addKeyGen g ∈ r.trace) ↔ (isW = true ∧ incG = true))) ∧
  (r.err = none → isW = false → incG = false)

theorem promoteLoop_err_shape (env : Env) :
    ∀ (us : List UID) (md : MD) (e : Err),
    (promoteLoop env md us).1 = some e → ∃ c, e = .ext c := by
  intro us
  induction us with
  | nil => intro md e h; cases h
  | cons u rest ih =>
    intro md e h
    unfold promoteLoop at h
    cases hp : env.promoteReader md u with
    | error c =>
      rw [hp] at h
      dsimp only at h
      cases h
      exact ⟨c, rfl⟩
    | ok md' =>
      rw [hp] at h
      dsimp only at h
      cases hr : promoteLoop env md' rest with
      | mk e? p =>
        rw [hr] at h
        dsimp only at h
        apply ih md'
        rw [hr]
        exact h

theorem rewrapLoop_err_shape (env : Env) (wKeys rKeys : UserDevicePublicKeys)
    (ePubKey ePrivKey : Nat) (pp : Bool) :
    ∀ (n : Nat) (g : KeyGen) (md : MD) (cache : KeyCache) (e : Err),
    (rewrapLoop env wKeys rKeys ePubKey ePrivKey pp n g md cache).1 = some e →
    e ≠ .rekeyIncomplete := by
  intro n
  induction n with
  | zero => intro g md cache e h; cases h
  | succ n ih =>
    intro g md cache e h
    unfold rewrapLoop at h
    cases hg : getTLFCryptKey env md.view g ⟨true, false, pp⟩ cache with
    | mk res p =>
      obtain ⟨c', evs⟩ := p
      rw [hg] at h
      cases res with
      | error e2 =>
        dsimp only at h
        cases h
        exact (getTLFCryptKey_err_shape (e := e) (by rw [hg])).1
      | ok key =>
        dsimp only at h
        cases hup : updateKeyGeneration env md g wKeys rKeys ePubKey ePrivKey key with
        | mk ur evsU =>
          rw [hup] at h
          cases ur with
          | error eu =>
            by_cases hnp : eu = Err.notPerDeviceEncrypted
            · subst hnp
              dsimp only at h
              cases hr : rewrapLoop env wKeys rKeys ePubKey ePrivKey pp n (g + 1) md c' with
              | mk e? p2 =>
                obtain ⟨md', c'', evs'⟩ := p2
                rw [hr] at h
                dsimp only at h
                apply ih (g + 1) md c'
                rw [hr]
                exact h
            · rcases updateKeyGeneration_err_shape hup with rfl | ⟨c, rfl⟩
              · exact absurd rfl hnp
              · dsimp only at h
                cases h
                intro h'; cases h'
          | ok md1 =>
            dsimp only at h
            cases hr : rewrapLoop env wKeys rKeys ePubKey ePrivKey pp n (g + 1) md1 c' with
            | mk e? p2 =>
              obtain ⟨md', c'', evs'⟩ := p2
              rw [hr] at h
              dsimp only at h
              apply ih (g + 1) md1 c'
              rw [hr]
              exact h

theorem rekeyFinish_spec (env : Env) (st : RekeyState)
    (hq : quiet st.trace = true) :
    SpecR (rekeyFinish env st) st.isWriter st.incKeyGen := by
  unfold rekeyFinish
  obtain ⟨m1, m2, m3, m4, m5, m6⟩ := rekeyMain_spec env st hq
  obtain ⟨d1, ⟨δ, dδ, dq⟩, d3, d4⟩ :=
    rekeyDefers_spec env st.resolvedHandle (rekeyMain env st)
  have hmemiff : ∀ g : KeyGen,
      Event.addKeyGen g ∈ (rekeyDefers env st.resolvedHandle
        (rekeyMain env st)).trace ↔
      Event.addKeyGen g ∈ (rekeyMain env st).trace := by
    intro g
    rw [dδ]
    exact mem_add_append_quiet dq g
  refine ⟨?_, ?_, ?_, ?_, ?_, ?_⟩
  · obtain ⟨t1, t2, ht, ha, hd⟩ := m1
    exact ⟨t1, t2 ++ δ, by rw [dδ, ht, List.append_assoc], ha,
      noDel_append hd (quiet_noDel dq)⟩
  · intro ⟨g, hg⟩ x hx
    rw [d1] at hx
    have hg' : Event.addKeyGen g ∈ (rekeyMain env st).trace :=
      (hmemiff g).mp hg
    have := m2 ⟨g, hg'⟩ x hx
    rw [dδ]
    exact List.mem_append.mpr (.inl this)
  · intro hS
    obtain ⟨hS', hck, _⟩ := d3 hS
    rw [hck]
    exact (m3 hS').trans (exists_congr fun g => (hmemiff g).symm)
  · intro h
    obtain ⟨_, _, hmd⟩ := d3 (.inl h)
    rw [hmd]
    exact m4 (d4 h)
  · intro h
    exact (exists_congr fun g => hmemiff g).trans (m5 (d4 h))
  · intro h
    exact m6 (d4 h)

theorem SpecR_errLeaf {e : Err} (he : e ≠ .rekeyIncomplete) (mdx : MD)
    (cx : KeyCache) (tr : List Event) (hna : noAdd tr = true)
    (isW incG : Bool) :
    SpecR ⟨false, none, some e, mdx, cx, tr, []⟩ isW incG := by
  refine ⟨⟨tr, [], by simp, hna, rfl⟩, ?_, ?_, ?_, ?_, ?_⟩
  · intro _ x hx; simp at hx
  · intro hS
    rcases hS with h | h
    · cases h
    · exact absurd (Option.some.inj h) he
  · intro h; cases h
  · intro h; cases h
  · intro h; cases h

theorem rekeyAfterRewrap_spec (env : Env) (st : RekeyState)
    (ePubKey ePrivKey : Nat) (mdR : MD) (cacheR : KeyCache) (tr : List Event)
    (hqt : quiet tr = true) :
    SpecR (rekeyAfterRewrap env st ePubKey ePrivKey mdR cacheR tr)
      st.isWriter st.incKeyGen := by
  unfold rekeyAfterRewrap
  by_cases hc : (!mdR.isReadable) = true ∧ 0 < mdR.serializedPMDLen
  · simp only [if_pos hc]
    cases hd : env.decryptMDPrivateData mdR st.uid with
    | error e =>
      dsimp only
      exact SpecR_errLeaf (by intro h'; cases h') _ _ _ (quiet_noAdd hqt) _ _
    | ok pmd =>
      dsimp only
      exact rekeyFinish_spec env _ (quiet_append hqt rfl)
  · simp only [if_neg hc]
    exact rekeyFinish_spec env _ (quiet_append hqt rfl)

theorem rekeyAfterScope_spec (env : Env) (st : RekeyState)
    (hq : quiet st.trace = true) :
    SpecR (rekeyAfterScope env st) st.isWriter st.incKeyGen := by
  unfold rekeyAfterScope
  cases heph : env.makeRandomTLFEphemeralKeys with
  | mk ePub ePriv =>
    dsimp only
    cases hpl : promoteLoop env st.md st.promotedReaders with
    | mk pe? p =>
      obtain ⟨mdP, evsP⟩ := p
      have hqp : quiet evsP = true := by
        have hl := promoteLoop_events env st.promotedReaders st.md
        rw [hpl] at hl
        exact hl
      cases pe? with
      | some e =>
        dsimp only
        obtain ⟨c, rfl⟩ := promoteLoop_err_shape env st.promotedReaders st.md e
          (by rw [hpl])
        exact SpecR_errLeaf (by intro h'; cases h') _ _ _
          (noAdd_append (quiet_noAdd hq) (quiet_noAdd hqp)) _ _
      | none =>
        dsimp only
        by_cases hadd : st.addNewReaderDevice = true ∨ st.addNewWriterDevice = true
        · simp only [if_pos hadd]
          cases hrw : rewrapLoop env st.wKeys st.rKeys ePub ePriv st.promptPaper
              (st.currKeyGen - FirstValidKeyGen + 1).toNat FirstValidKeyGen
              mdP st.cache with
          | mk re? p2 =>
            obtain ⟨mdR, cacheR, evsR⟩ := p2
            have hqr : quiet evsR = true := by
              have hl := rewrapLoop_events env st.wKeys st.rKeys ePub ePriv
                st.promptPaper (st.currKeyGen - FirstValidKeyGen + 1).toNat
                FirstValidKeyGen mdP st.cache
              rw [hrw] at hl
              exact hl
            cases re? with
            | some e =>
              dsimp only
              exact SpecR_errLeaf
                (rewrapLoop_err_shape env st.wKeys st.rKeys ePub ePriv
                  st.promptPaper _ _ _ _ e (by rw [hrw])) _ _ _
                (noAdd_append (noAdd_append (quiet_noAdd hq) (quiet_noAdd hqp))
                  (quiet_noAdd hqr)) _ _
            | none =>
              dsimp only
              exact rekeyAfterRewrap_spec env st ePub ePriv mdR cacheR _
                (quiet_append (quiet_append hq hqp) hqr)
        · simp only [if_neg hadd]
          exact rekeyAfterRewrap_spec env st ePub ePriv mdP st.cache _
            (quiet_append hq hqp)

theorem rekeyAfterDiff_spec (env : Env) (st : RekeyState)
    (hq : quiet st.trace = true) :
    SpecR (rekeyAfterDiff env st) st.isWriter st.incKeyGen := by
  unfold rekeyAfterDiff
  by_cases hw : st.isWriter = true
  · simp only [if_pos hw]
    exact rekeyAfterScope_spec env st hq
  · simp only [if_neg hw]
    by_cases hcond : st.newReaderUsers.contains st.uid = true ∧
        ¬ st.promotedReaders.contains st.uid = true
    · simp only [if_pos hcond]
      exact rekeyAfterScope_spec env _ hq
    · simp only [if_neg hcond]
      refine ⟨⟨st.trace, [], by simp, quiet_noAdd hq, rfl⟩, ?_, ?_, ?_, ?_, ?_⟩
      · intro _ x hx; simp at hx
      · intro _
        constructor
        · intro hck; exact absurd rfl hck
        · intro ⟨g, hg⟩
          exact absurd hg (quiet_not_mem_add hq g)
      · intro h; cases h
      · intro h; cases h
      · intro h; cases h

/-- The top-level behavioural bundle of a `Rekey` call: trace split for
delete-before-add ordering, deletion completeness under a generation bump,
the crypt-key/new-generation correspondence, and the no-op shape. -/
def TopSpec (r : RekeyResult) (md0 : MD) : Prop :=
  (∃ t1 t2, r.trace = t1 ++ t2 ∧ noAdd t1 = true ∧ noDel t2 = true) ∧
  ((∃ g, Event.addKeyGen g ∈ r.trace) →
    ∀ x ∈ r.removalIDs, Event.deleteServerHalf x.1 x.2.1 x.2.2 ∈ r.trace) ∧
  (r.err = none ∨ r.err = some .rekeyIncomplete →
    (r.cryptKey ≠ none ↔ ∃ g, Event.addKeyGen g ∈ r.trace)) ∧
  (r.err = none → r.mdChanged = false →
    r.cryptKey = none ∧ r.md = md0)

theorem TopSpec_errLeaf {e : Err} (he : e ≠ .rekeyIncomplete) (b : Bool)
    (mdx : MD) (cx : KeyCache) (tr : List Event) (hna : noAdd tr = true)
    (md0 : MD) : TopSpec ⟨b, none, some e, mdx, cx, tr, []⟩ md0 := by
  refine ⟨⟨tr, [], by simp, hna, rfl⟩, ?_, ?_, ?_⟩
  · intro _ x hx; simp at hx
  · intro hS
    rcases hS with h | h
    · cases h
    · exact absurd (Option.some.inj h) he
  · intro h; cases h

theorem TopSpec_noop (md0 : MD) (cx : KeyCache) :
    TopSpec ⟨false, none, none, md0, cx, [], []⟩ md0 := by
  refine ⟨⟨[], [], by simp, rfl, rfl⟩, ?_, ?_, ?_⟩
  · intro _ x hx; simp at hx
  · intro _
    constructor
    · intro hck; exact absurd rfl hck
    · intro ⟨g, hg⟩; simp at hg
  · intro _ _
    exact ⟨rfl, rfl⟩

theorem TopSpec_of_SpecR {r : RekeyResult} {isW incG : Bool} (md0 : MD)
    (h : SpecR r isW incG) : TopSpec r md0 := by
  obtain ⟨h1, h2, h3, h4, _, _⟩ := h
  refine ⟨h1, h2, h3, ?_⟩
  intro he hmd
  rw [h4 he] at hmd
  cases hmd

theorem resolveHandleForRekey_err_shape {env : Env} {md : MD} {uid : UID}
    {e : Err} (h : resolveHandleForRekey env md uid = .error e) :
    ∃ c, e = .ext c := by
  unfold resolveHandleForRekey at h
  cases hr : env.resolveAgain md.handle with
  | error c => rw [hr] at h; cases h; exact ⟨c, rfl⟩
  | ok rh0 =>
    rw [hr] at h
    dsimp only at h
    by_cases hc : (!md.view.tlfID.isPublic && !rh0.isWriter uid) = true
    · rw [if_pos hc] at h
      by_cases hir : md.handle.isReader uid = true
      · rw [if_pos hir] at h
        dsimp only at h
        by_cases hch : md.handle ≠ md.handle
        · rw [if_pos hch] at h
          cases hu : env.withUpdatedConflictInfo md.handle
              (match env.getLatestHandleForTLF md.view.tlfID with
                | .ok h => h
                | .error _ => Handle.zero).conflictInfo with
          | error c => rw [hu] at h; cases h; exact ⟨c, rfl⟩
          | ok rh2 => rw [hu] at h; cases h
        · rw [if_neg hch] at h; cases h
      · rw [if_neg hir] at h
        cases hru : env.resolveAgainForUser md.handle uid with
        | error c =>
          rw [hru] at h
          dsimp only at h
          cases h
          exact ⟨c, rfl⟩
        | ok rh1 =>
          rw [hru] at h
          dsimp only at h
          by_cases hch : md.handle ≠ rh1
          · rw [if_pos hch] at h
            cases hu : env.withUpdatedConflictInfo rh1
                (match env.getLatestHandleForTLF md.view.tlfID with
                  | .ok h => h
                  | .error _ => Handle.zero).conflictInfo with
            | error c => rw [hu] at h; cases h; exact ⟨c, rfl⟩
            | ok rh2 => rw [hu] at h; cases h
          · rw [if_neg hch] at h; cases h
    · rw [if_neg hc] at h
      dsimp only at h
      by_cases hch : md.handle ≠ rh0
      · rw [if_pos hch] at h
        cases hu : env.withUpdatedConflictInfo rh0
            (match env.getLatestHandleForTLF md.view.tlfID with
              | .ok h => h
              | .error _ => Handle.zero).conflictInfo with
        | error c => rw [hu] at h; cases h; exact ⟨c, rfl⟩
        | ok rh2 => rw [hu] at h; cases h
      · rw [if_neg hch] at h; cases h

theorem Rekey_spec (env : Env) (md : MD) (pp : Bool) (cache : KeyCache) :
    TopSpec (Rekey env md pp cache) md := by
  unfold Rekey
  dsimp only
  split
  · exact TopSpec_errLeaf (by intro h'; cases h') _ _ _ _ (by rfl) _
  split
  · exact TopSpec_errLeaf (by intro h'; cases h') _ _ _ _ (by rfl) _
  split
  · exact TopSpec_errLeaf (by intro h'; cases h') _ _ _ _ (by rfl) _
  case _ username uid heq =>
  split
  case _ e hres =>
    obtain ⟨c, rfl⟩ := resolveHandleForRekey_err_shape hres
    exact TopSpec_errLeaf (by intro h'; cases h') _ _ _ _ (by rfl) _
  case _ resolvedHandle isWriter handleChanged hres =>
  split
  · -- public branch
    split
    · exact TopSpec_noop md cache
    · split
      · -- updateFromTlfHandle ok
        refine ⟨⟨[.updateHandle], [], by simp, rfl, rfl⟩, ?_, ?_, ?_⟩
        · intro _ x hx; simp at hx
        · intro _
          constructor
          · intro hck; exact absurd rfl hck
          · intro ⟨g, hg⟩; simp at hg
        · intro _ hmd; cases hmd
      · exact TopSpec_errLeaf (by intro h'; cases h') _ _ _ _ (by rfl) _
  · -- private branch
    split
    · exact TopSpec_errLeaf (by intro h'; cases h') _ _ _ _ (by rfl) _
    · split
      · exact TopSpec_errLeaf (by intro h'; cases h') _ _ _ _ (by rfl) _
      · split
        · exact TopSpec_errLeaf (by intro h'; cases h') _ _ _ _ (by rfl) _
        · split
          · exact TopSpec_of_SpecR md (rekeyAfterDiff_spec env _ rfl)
          · split
            · exact TopSpec_errLeaf (by intro h'; cases h') _ _ _ _ (by rfl) _
            · split
              · exact TopSpec_errLeaf (by intro h'; cases h') _ _ _ _ (by rfl) _
              · split
                · exact TopSpec_noop md cache
                · exact TopSpec_of_SpecR md (rekeyAfterDiff_spec env _ rfl)

theorem Rekey_eq_postDiff (env : Env) (md : MD) (pp : Bool)
    (cache : KeyCache) (username uid : UID) (rh : Handle) (isW hc : Bool)
    (wKeys rKeys : UserDevicePublicKeys)
    (rDkim wDkim : UserDeviceKeyInfoMap)
    (hpub : md.view.tlfID.isPublic = false)
    (hgen : FirstValidKeyGen ≤ md.view.latestKeyGeneration)
    (hu : env.getCurrentUserInfo = .ok (username, uid))
    (hres : resolveHandleForRekey env md uid = .ok (rh, isW, hc))
    (hw : generateKeyMapForUsers env rh.writers = .ok wKeys)
    (hr : generateKeyMapForUsers env rh.readers = .ok rKeys)
    (hdk : env.getUserDeviceKeyInfoMaps md md.view.latestKeyGeneration =
      .ok (rDkim, wDkim)) :
    Rekey env md pp cache =
      rekeyPostDiff env md pp cache uid rh isW hc wKeys rKeys rDkim wDkim := by
  have hlat : ¬ (md.view.latestKeyGeneration = PublicKeyGen) := by
    intro hcontra
    rw [hcontra] at hgen
    exact absurd hgen (by decide)
  have hnlt : ¬ (md.view.latestKeyGeneration < FirstValidKeyGen) :=
    not_lt.mpr hgen
  unfold Rekey
  dsimp only
  rw [hpub, hu, decide_eq_false hlat]
  rw [if_neg (fun h => h rfl)]
  rw [if_neg (fun h => Bool.false_ne_true h.2)]
  dsimp only
  rw [hres]
  dsimp only
  rw [if_neg Bool.false_ne_true]
  rw [if_neg (fun h => hnlt h.2)]
  rw [hw]
  dsimp only
  rw [hr]
  dsimp only
  rw [if_neg hnlt, hdk]
  rfl

/-- C5: within every single `Rekey` call, the event trace never shows a
server-half deletion after a key generation has been appended, and
whenever a new generation is appended, every orphaned server-half id
reported by `revokeRemovedDevices` during the call has its deletion in the
trace: all deletions of revoked devices' server key halves complete before
`AddKeyGeneration`. -/
theorem rekey_deletes_before_addKeyGen (env : Env) (md : MD) (pp : Bool)
    (cache : KeyCache) :
    noDeleteAfterAdd (Rekey env md pp cache).trace = true ∧
    ((∃ g, Event.addKeyGen g ∈ (Rekey env md pp cache).trace) →
      ∀ x ∈ (Rekey env md pp cache).removalIDs,
        Event.deleteServerHalf x.1 x.2.1 x.2.2 ∈
          (Rekey env md pp cache).trace) := by
  obtain ⟨⟨t1, t2, ht, hna, hnd⟩, h2, _, _⟩ := Rekey_spec env md pp cache
  exact ⟨ht ▸ noDeleteAfterAdd_split hna hnd, h2⟩

/-- C5 witness: in the promotion scenario where revocation reports the
orphaned server half (2, 5, 30), the deletion ordering holds and the
deletion event for that id is in the trace. -/
theorem rekey_deletes_before_addKeyGen_witness :
    noDeleteAfterAdd (Rekey env5 mdW false []).trace = true ∧
    Event.deleteServerHalf 2 5 30 ∈ (Rekey env5 mdW false []).trace := by
  refine ⟨(rekey_deletes_before_addKeyGen env5 mdW false []).1, ?_⟩
  refine (rekey_deletes_before_addKeyGen env5 mdW false []).2 ⟨3, ?_⟩
    (2, 5, 30) ?_
  · show Event.addKeyGen 3 ∈ (Rekey env5 mdW false []).trace
    simp [show (Rekey env5 mdW false []).trace =
      [Event.promote 2, Event.cacheGet ⟨1, false⟩ 1, Event.identity,
       Event.identity, Event.serverHalfFetch 30, Event.putServerHalves,
       Event.cacheGet ⟨1, false⟩ 2, Event.identity, Event.identity,
       Event.serverHalfFetch 30, Event.putServerHalves, Event.notify,
       Event.deleteServerHalf 2 5 30, Event.addKeyGen 3,
       Event.putServerHalves, Event.finalize, Event.updateHandle] from rfl]
  · show (2, 5, 30) ∈ (Rekey env5 mdW false []).removalIDs
    simp [show (Rekey env5 mdW false []).removalIDs = [(2, 5, 30)] from rfl]

/-- C3: for every `Rekey` call that returns without error or with
`RekeyIncompleteError`, the returned crypt key is non-`none` exactly when
a new key generation was added during the call; and a call that returns
without error and without changing the metadata (a no-op) returns no
crypt key and leaves the metadata untouched, so rewrap-, promotion- or
handle-update-only calls return `(true, none)` and no-ops return
`(false, none)`. -/
theorem rekey_cryptKey_iff_new_generation (env : Env) (md : MD) (pp : Bool)
    (cache : KeyCache) :
    ((Rekey env md pp cache).err = none ∨
        (Rekey env md pp cache).err = some .rekeyIncomplete →
      ((Rekey env md pp cache).cryptKey ≠ none ↔
        ∃ g, Event.addKeyGen g ∈ (Rekey env md pp cache).trace)) ∧
    ((Rekey env md pp cache).err = none →
      (Rekey env md pp cache).mdChanged = false →
      (Rekey env md pp cache).cryptKey = none ∧
        (Rekey env md pp cache).md = md) := by
  obtain ⟨_, _, h3, h4⟩ := Rekey_spec env md pp cache
  exact ⟨h3, h4⟩

/-- C3 witness: the promotion-only scenario ends without error with crypt
key 15, so a new key generation was added during the call (KBFS-1744). -/
theorem rekey_cryptKey_iff_new_generation_witness :
    (Rekey envP mdW false []).err = none ∧
    (∃ g, Event.addKeyGen g ∈ (Rekey envP mdW false []).trace) := by
  refine ⟨rfl, ((rekey_cryptKey_iff_new_generation envP mdW false []).1
    (Or.inl rfl)).mp ?_⟩
  intro hck
  rw [show (Rekey envP mdW false []).cryptKey = some 15 from rfl] at hck
  cases hck

theorem rekeyAfterDiff_addKeyGen_iff (env : Env) (st : RekeyState)
    (hq : quiet st.trace = true)
    (herr : (rekeyAfterDiff env st).err = none) :
    ((∃ g, Event.addKeyGen g ∈ (rekeyAfterDiff env st).trace) ↔
      (st.isWriter = true ∧ st.incKeyGen = true)) ∧
    (st.isWriter = false → st.incKeyGen = false) := by
  obtain ⟨_, _, _, _, h5, h6⟩ := rekeyAfterDiff_spec env st hq
  exact ⟨h5 herr, h6 herr⟩

/-- C1: on a non-public folder whose latest generation is already valid,
a `Rekey` call that succeeds has added a new key generation exactly when
the set of users with removed devices (writers or readers) is non-empty;
since a promoted reader counts as a user with removed reader devices,
`incKeyGen` fires even for promotion-only changes (KBFS-1744 preserved). -/
theorem rekey_incKeyGen_iff_removed_devices (env : Env) (md : MD)
    (pp : Bool) (cache : KeyCache) (username uid : UID) (rh : Handle)
    (isW hc : Bool) (wKeys rKeys : UserDevicePublicKeys)
    (rDkim wDkim : UserDeviceKeyInfoMap)
    (hpub : md.view.tlfID.isPublic = false)
    (hgen : FirstValidKeyGen ≤ md.view.latestKeyGeneration)
    (hu : env.getCurrentUserInfo = .ok (username, uid))
    (hres : resolveHandleForRekey env md uid = .ok (rh, isW, hc))
    (hw : generateKeyMapForUsers env rh.writers = .ok wKeys)
    (hr : generateKeyMapForUsers env rh.readers = .ok rKeys)
    (hdk : env.getUserDeviceKeyInfoMaps md md.view.latestKeyGeneration =
      .ok (rDkim, wDkim))
    (herr : (Rekey env md pp cache).err = none) :
    (∃ g, Event.addKeyGen g ∈ (Rekey env md pp cache).trace) ↔
      (usersWithRemovedDevices wDkim wKeys ≠ [] ∨
        usersWithRemovedDevices rDkim rKeys ≠ []) := by
  have heq := Rekey_eq_postDiff env md pp cache username uid rh isW hc
    wKeys rKeys rDkim wDkim hpub hgen hu hres hw hr hdk
  rw [heq] at herr ⊢
  unfold rekeyPostDiff at herr ⊢
  dsimp only at herr ⊢
  revert herr
  split
  case _ e hid =>
    intro herr
    simp at herr
  case _ u hid =>
    split
    case _ hnoop =>
      intro herr
      constructor
      · intro ⟨g, hg⟩
        simp at hg
      · intro hrem
        exact absurd hrem hnoop.2.2.1
    case _ hnoop =>
      intro herr
      obtain ⟨h5, h6⟩ := rekeyAfterDiff_addKeyGen_iff env _ (by rfl) herr
      dsimp only at h5 h6
      simp only [decide_eq_true_eq, decide_eq_false_iff_not] at h5 h6
      constructor
      · intro hadd
        exact (h5.mp hadd).2
      · intro hrem
        by_cases hb : isW = true
        · exact h5.mpr ⟨hb, hrem⟩
        · exact absurd hrem (h6 (by simpa using hb))

/-- C1 witness: in the promotion-only scenario the promoted reader's
devices leave the reader key set, so the removed-device set is non-empty
and the successful call has added a new key generation. -/
theorem rekey_incKeyGen_iff_removed_devices_witness :
    usersWithRemovedDevices [(2, [5])] ([] : UserDevicePublicKeys) ≠ [] ∧
    (∃ g, Event.addKeyGen g ∈ (Rekey envP mdW false []).trace) := by
  have hiff := rekey_incKeyGen_iff_removed_devices envP mdW false [] 0 1
    ⟨[1, 2], [], none⟩ true true [(1, [5]), (2, [5])]
    ([] : UserDevicePublicKeys) [(2, [5])] [(1, [5])]
    rfl (by decide) rfl rfl rfl rfl rfl rfl
  exact ⟨by decide, hiff.mpr (Or.inr (by decide))⟩

/-- C2: when the `Rekey` caller is not a writer and there is something to
rekey, then if the caller has a new reader device and is not a promoted
reader, the call continues with the scope restricted to exactly the
caller's own reader entry (`rKeys` becomes the caller's singleton,
`wKeys` becomes empty, the caller leaves the new-reader-user set); in
every other non-writer case the call returns `RekeyIncompleteError`
immediately with nothing changed. -/
theorem rekey_reader_scope_restriction (env : Env) (md : MD) (pp : Bool)
    (cache : KeyCache) (username uid : UID) (rh : Handle) (hc : Bool)
    (wKeys rKeys : UserDevicePublicKeys)
    (rDkim wDkim : UserDeviceKeyInfoMap)
    (hpub : md.view.tlfID.isPublic = false)
    (hgen : FirstValidKeyGen ≤ md.view.latestKeyGeneration)
    (hu : env.getCurrentUserInfo = .ok (username, uid))
    (hres : resolveHandleForRekey env md uid = .ok (rh, false, hc))
    (hw : generateKeyMapForUsers env rh.writers = .ok wKeys)
    (hr : generateKeyMapForUsers env rh.readers = .ok rKeys)
    (hdk : env.getUserDeviceKeyInfoMaps md md.view.latestKeyGeneration =
      .ok (rDkim, wDkim))
    (hid : env.identifyUIDSets md.view.tlfID
      (mergeUsers (usersWithNewDevices wDkim wKeys)
        (usersWithRemovedDevices wDkim wKeys))
      (mergeUsers (usersWithNewDevices rDkim rKeys)
        (usersWithRemovedDevices rDkim rKeys)) = .ok ())
    (hsome : ¬ (¬ usersWithNewDevices rDkim rKeys ≠ [] ∧
      ¬ usersWithNewDevices wDkim wKeys ≠ [] ∧
      ¬ (usersWithRemovedDevices wDkim wKeys ≠ [] ∨
        usersWithRemovedDevices rDkim rKeys ≠ []) ∧
      ¬ hc = true)) :
    ((mergeUsers (usersWithNewDevices rDkim rKeys)
        (usersWithRemovedDevices rDkim rKeys)).contains uid = true ∧
      ¬ ((usersWithRemovedDevices rDkim rKeys).filter fun u =>
          (usersWithNewDevices wDkim wKeys).contains u).contains uid = true →
      Rekey env md pp cache = rekeyAfterScope env
        ⟨md, cache, [], uid, rh, false,
          decide (usersWithRemovedDevices wDkim wKeys ≠ [] ∨
            usersWithRemovedDevices rDkim rKeys ≠ []),
          decide (usersWithNewDevices rDkim rKeys ≠ []),
          decide (usersWithNewDevices wDkim wKeys ≠ []),
          (usersWithNewDevices rDkim rKeys).contains uid,
          (mergeUsers (usersWithNewDevices rDkim rKeys)
            (usersWithRemovedDevices rDkim rKeys)).erase uid,
          mergeUsers (usersWithNewDevices wDkim wKeys)
            (usersWithRemovedDevices wDkim wKeys),
          (usersWithRemovedDevices rDkim rKeys).filter (fun u =>
            (usersWithNewDevices wDkim wKeys).contains u),
          [], [(uid, (lookupA rKeys uid).getD [])],
          md.view.latestKeyGeneration, pp, 0, 0⟩) ∧
    (¬ ((mergeUsers (usersWithNewDevices rDkim rKeys)
        (usersWithRemovedDevices rDkim rKeys)).contains uid = true ∧
      ¬ ((usersWithRemovedDevices rDkim rKeys).filter fun u =>
          (usersWithNewDevices wDkim wKeys).contains u).contains uid = true) →
      Rekey env md pp cache =
        ⟨false, none, some .rekeyIncomplete, md, cache, [], []⟩) := by
  have heq := Rekey_eq_postDiff env md pp cache username uid rh false hc
    wKeys rKeys rDkim wDkim hpub hgen hu hres hw hr hdk
  rw [heq]
  unfold rekeyPostDiff
  dsimp only
  rw [hid]
  dsimp only
  rw [if_neg hsome]
  unfold rekeyAfterDiff
  dsimp only
  rw [if_neg Bool.false_ne_true]
  constructor
  · intro hcond
    rw [if_pos hcond]
  · intro hncond
    rw [if_neg hncond]

/-- C2 witness: reader 2 enrolls their own new device 6 — the call
continues with `wKeys` empty, `rKeys` restricted to reader 2's entry, and
2 removed from the new-reader-user set. -/
theorem rekey_reader_scope_restriction_witness :
    Rekey envR mdW false [] = rekeyAfterScope envR
      ⟨mdW, [], [], 2, ⟨[1], [2], none⟩, false, false, true, false, true,
        [], [], [], [], [(2, [5, 6])], 2, false, 0, 0⟩ :=
  (rekey_reader_scope_restriction envR mdW false [] 0 2 ⟨[1], [2], none⟩
    false [(1, [5])] [(2, [5, 6])] [(2, [5])] [(1, [5])]
    rfl (by decide) rfl rfl rfl rfl rfl rfl (by decide)).1 (by decide)

/-- C8: on a non-public folder with no valid key generation yet, a caller
who is not a writer in the re-resolved handle fails with `ReadAccess`,
returning `(false, none)` with the metadata, cache and trace untouched. -/
theorem rekey_reader_first_keygen_readAccess (env : Env) (md : MD)
    (pp : Bool) (cache : KeyCache) (username uid : UID) (rh : Handle)
    (hc : Bool)
    (hpub : md.view.tlfID.isPublic = false)
    (hgen0 : md.view.latestKeyGeneration < FirstValidKeyGen)
    (hlat : ¬ md.view.latestKeyGeneration = PublicKeyGen)
    (hu : env.getCurrentUserInfo = .ok (username, uid))
    (hres : resolveHandleForRekey env md uid = .ok (rh, false, hc)) :
    Rekey env md pp cache =
      ⟨false, none, some .readAccess, md, cache, [], []⟩ := by
  unfold Rekey
  dsimp only
  rw [hpub, hu, decide_eq_false hlat]
  rw [if_neg (fun h => h rfl)]
  rw [if_neg (fun h => Bool.false_ne_true h.2)]
  dsimp only
  rw [hres]
  dsimp only
  rw [if_neg Bool.false_ne_true]
  rw [if_pos ⟨rfl, hgen0⟩]

/-- C8 witness: reader 2 calling `Rekey` on the witness folder before any
generation exists gets `ReadAccess` and nothing changes. -/
theorem rekey_reader_first_keygen_readAccess_witness :
    Rekey envR mdW0 false [] =
      ⟨false, none, some .readAccess, mdW0, [], [], []⟩ :=
  rekey_reader_first_keygen_readAccess envR mdW0 false [] 0 2
    ⟨[1], [2], none⟩ false rfl (by decide) (by decide) rfl rfl

/-- C9: when `FinalizeRekey` fails at the end of an otherwise-successful
`Rekey` call (the main body changed the metadata and ended with no error
or with `RekeyIncompleteError`), the call reports `mdChanged = false` and
no crypt key together with the finalize error, even though the in-memory
metadata object keeps all the mutations of the main body. -/
theorem rekey_finalize_failure_masks_success (env : Env) (md0 : MD)
    (pp : Bool) (cache0 : KeyCache) (st : RekeyState) (e : Nat)
    (hrun : Rekey env md0 pp cache0 = rekeyFinish env st)
    (hmd : (rekeyMain env st).mdChanged = true)
    (herr : (rekeyMain env st).err = none ∨
      (rekeyMain env st).err = some .rekeyIncomplete)
    (hfin : env.finalizeRekey (rekeyMain env st).md = .error e) :
    Rekey env md0 pp cache0 =
      ⟨false, none, some (.ext e), (rekeyMain env st).md,
        (rekeyMain env st).cache,
        (rekeyMain env st).trace ++ [.finalize],
        (rekeyMain env st).removalIDs⟩ := by
  rw [hrun]
  unfold rekeyFinish rekeyDefers
  dsimp only
  have hcond : (rekeyMain env st).mdChanged = true ∧
      ((rekeyMain env st).err = none ∨
        (rekeyMain env st).err = some Err.rekeyIncomplete) := ⟨hmd, herr⟩
  rw [if_pos hcond, hfin]
  dsimp only
  rw [if_neg (by rintro (h | h) <;> simp at h)]

/-- C9 witness: a conflict-marker-only re-resolution makes the main body
change the metadata without error; `FinalizeRekey` fails with code 77 and
the call reports `(false, none, ext 77)` with the finalize event traced. -/
theorem rekey_finalize_failure_masks_success_witness :
    Rekey envC9 mdW false [] =
      ⟨false, none, some (.ext 77), mdW, [], [.finalize], []⟩ :=
  rekey_finalize_failure_masks_success envC9 mdW false [] stC9 77
    (by rfl) (by rfl) (Or.inl (by rfl)) (by rfl)
